import Mathlib

/-!
Verification development for the mwareeth inheritance core.

The definitions below are a shallow embedding of the two cooperating
subsystems of the repository:

* the Heir Classification Engine (heir_builder.py): a finite-state token
  processor folding a lineage path into a heir category;
* the Relationship Resolver (entities/family_tree.py): graph traversal
  from a focal person producing relationship records with lineage paths,
  together with the Sibling Classifier table
  ANCESTORS_SIBLINGS_RELATIONSHIPS;
* the value types (entities/relationship.py, entities/heir.py,
  entities/person.py).

Python sets are modelled as duplicate-free lists, object identity of a
Person as an index into a fixed finite arena of persons, and raising an
exception as returning Except.error. Loops with a mutable stack are
modelled with an explicit fuel parameter; a dedicated theorem shows the
chosen fuel is always sufficient, which is the termination argument for
the traversal.
-/

deriving instance DecidableEq for Except

namespace Mwareeth

/-- Gender enumeration from entities/person.py. -/
inductive Gender where
  | UNKNOWN
  | MALE
  | FEMALE
deriving DecidableEq, Repr, Fintype

/-- The closed enumeration of canonical relationship labels from
entities/relationship.py (class RelationshipType). -/
inductive RelationshipType where
  | SELF
  | FATHER
  | MOTHER
  | GRANDFATHER
  | GRANDMOTHER
  | BROTHER_FULL
  | BROTHER_PARENTAL
  | BROTHER_MATERNAL
  | SISTER_FULL
  | SISTER_PARENTAL
  | SISTER_MATERNAL
  | PARENTAL_UNCLE_FULL
  | PARENTAL_UNCLE_PARENTAL
  | PARENTAL_UNCLE_MATERNAL
  | PARENTAL_AUNT_FULL
  | PARENTAL_AUNT_PARENTAL
  | PARENTAL_AUNT_MATERNAL
  | MATERNAL_UNCLE_FULL
  | MATERNAL_UNCLE_PARENTAL
  | MATERNAL_UNCLE_MATERNAL
  | MATERNAL_AUNT_FULL
  | MATERNAL_AUNT_PARENTAL
  | MATERNAL_AUNT_MATERNAL
  | COUSIN
  | NEPHEW
  | NIECE
  | SON
  | DAUGHTER
  | GRANDSON
  | GRANDDAUGHTER
  | HUSBAND
  | WIFE
deriving DecidableEq, Repr, Fintype

/-- The closed enumeration of inheritance categories from
entities/heir.py (class HeirType). -/
inductive HeirType where
  | HUSBAND
  | WIFE
  | SON
  | DAUGHTER
  | FATHER
  | MOTHER
  | BROTHER_FULL
  | BROTHER_PARENTAL
  | BROTHER_MATERNAL
  | SISTER_FULL
  | SISTER_PARENTAL
  | SISTER_MATERNAL
  | NEPHEW_FULL
  | NEPHEW_PARENTAL
  | UNCLE_FULL
  | UNCLE_PARENTAL
  | SON_UNCLE_FULL
  | SON_UNCLE_PARENTAL
  | UTERINE
  | STRANGER
  | SELF
deriving DecidableEq, Repr, Fintype

/-- FINAL_STATES from heir_builder.py: the absorbing terminal states of the
state machine. -/
def FINAL_STATES : List HeirType :=
  [HeirType.HUSBAND, HeirType.WIFE, HeirType.STRANGER]

/--
The transition function of HeirStateMachine (heir_builder.py lines 14-121).
The result is the next state; none models the TransitionNotAllowed
exception raised by the state-machine library when the current state has
no transition on the received event (including every event received in a
final state, since final states declare no outgoing transitions).

The first branch models lines 118-121: the SELF event was given a
transition to STRANGER from the initial state and, via the loop over
NON_FINAL_STATES, from every non-final state.
-/
def heirTransition (s : HeirType) (t : RelationshipType) : Option HeirType :=
  if t = RelationshipType.SELF then
    if s = HeirType.HUSBAND ∨ s = HeirType.WIFE ∨ s = HeirType.STRANGER then none
    else some HeirType.STRANGER
  else
    match s, t with
    -- Initial state
    | .SELF, .HUSBAND => some .HUSBAND
    | .SELF, .WIFE => some .WIFE
    | .SELF, .FATHER => some .FATHER
    | .SELF, .MOTHER => some .MOTHER
    | .SELF, .SON => some .SON
    | .SELF, .DAUGHTER => some .DAUGHTER
    -- siblings
    | .SELF, .BROTHER_FULL => some .BROTHER_FULL
    | .SELF, .BROTHER_PARENTAL => some .BROTHER_PARENTAL
    | .SELF, .BROTHER_MATERNAL => some .BROTHER_MATERNAL
    | .SELF, .SISTER_FULL => some .SISTER_FULL
    | .SELF, .SISTER_PARENTAL => some .SISTER_PARENTAL
    | .SELF, .SISTER_MATERNAL => some .SISTER_MATERNAL
    -- uncles and aunts
    | .SELF, .PARENTAL_UNCLE_FULL => some .UNCLE_FULL
    | .SELF, .PARENTAL_UNCLE_PARENTAL => some .UNCLE_PARENTAL
    | .SELF, .PARENTAL_UNCLE_MATERNAL => some .UTERINE
    | .SELF, .PARENTAL_AUNT_FULL => some .UTERINE
    | .SELF, .PARENTAL_AUNT_PARENTAL => some .UTERINE
    | .SELF, .PARENTAL_AUNT_MATERNAL => some .UTERINE
    | .SELF, .MATERNAL_UNCLE_FULL => some .UTERINE
    | .SELF, .MATERNAL_UNCLE_PARENTAL => some .UTERINE
    | .SELF, .MATERNAL_UNCLE_MATERNAL => some .UTERINE
    | .SELF, .MATERNAL_AUNT_FULL => some .UTERINE
    | .SELF, .MATERNAL_AUNT_PARENTAL => some .UTERINE
    | .SELF, .MATERNAL_AUNT_MATERNAL => some .UTERINE
    -- Descendants
    | .SON, .SON => some .SON
    | .SON, .DAUGHTER => some .DAUGHTER
    | .DAUGHTER, .SON => some .UTERINE
    | .DAUGHTER, .DAUGHTER => some .UTERINE
    -- Ancestors
    | .FATHER, .FATHER => some .FATHER
    | .FATHER, .MOTHER => some .MOTHER
    | .MOTHER, .MOTHER => some .MOTHER
    | .MOTHER, .FATHER => some .UTERINE
    -- Siblings
    | .BROTHER_FULL, .SON => some .NEPHEW_FULL
    | .BROTHER_FULL, .DAUGHTER => some .UTERINE
    | .BROTHER_PARENTAL, .SON => some .NEPHEW_PARENTAL
    | .BROTHER_PARENTAL, .DAUGHTER => some .UTERINE
    | .BROTHER_MATERNAL, .SON => some .UTERINE
    | .BROTHER_MATERNAL, .DAUGHTER => some .UTERINE
    | .NEPHEW_PARENTAL, .SON => some .NEPHEW_PARENTAL
    | .NEPHEW_PARENTAL, .DAUGHTER => some .UTERINE
    | .SISTER_FULL, .SON => some .UTERINE
    | .SISTER_PARENTAL, .SON => some .UTERINE
    | .SISTER_MATERNAL, .SON => some .UTERINE
    | .SISTER_FULL, .DAUGHTER => some .UTERINE
    | .SISTER_PARENTAL, .DAUGHTER => some .UTERINE
    | .SISTER_MATERNAL, .DAUGHTER => some .UTERINE
    -- Uncles and their sons
    | .UNCLE_FULL, .SON => some .SON_UNCLE_FULL
    | .UNCLE_PARENTAL, .SON => some .SON_UNCLE_PARENTAL
    | .UNCLE_FULL, .DAUGHTER => some .UTERINE
    | .UNCLE_PARENTAL, .DAUGHTER => some .UTERINE
    | .SON_UNCLE_FULL, .SON => some .SON_UNCLE_FULL
    | .SON_UNCLE_PARENTAL, .SON => some .SON_UNCLE_PARENTAL
    | .SON_UNCLE_FULL, .DAUGHTER => some .UTERINE
    | .SON_UNCLE_PARENTAL, .DAUGHTER => some .UTERINE
    -- Uncle and aunt events received in an ancestor state
    | .FATHER, .PARENTAL_UNCLE_FULL => some .UNCLE_FULL
    | .FATHER, .PARENTAL_UNCLE_PARENTAL => some .UNCLE_PARENTAL
    | .FATHER, .PARENTAL_UNCLE_MATERNAL => some .UTERINE
    | .FATHER, .PARENTAL_AUNT_FULL => some .UTERINE
    | .FATHER, .PARENTAL_AUNT_PARENTAL => some .UTERINE
    | .FATHER, .PARENTAL_AUNT_MATERNAL => some .UTERINE
    | .FATHER, .MATERNAL_UNCLE_FULL => some .UTERINE
    | .FATHER, .MATERNAL_UNCLE_PARENTAL => some .UTERINE
    | .FATHER, .MATERNAL_UNCLE_MATERNAL => some .UTERINE
    | .FATHER, .MATERNAL_AUNT_FULL => some .UTERINE
    | .FATHER, .MATERNAL_AUNT_PARENTAL => some .UTERINE
    | .FATHER, .MATERNAL_AUNT_MATERNAL => some .UTERINE
    | .MOTHER, .PARENTAL_UNCLE_FULL => some .UTERINE
    | .MOTHER, .PARENTAL_UNCLE_PARENTAL => some .UTERINE
    | .MOTHER, .PARENTAL_UNCLE_MATERNAL => some .UTERINE
    | .MOTHER, .PARENTAL_AUNT_FULL => some .UTERINE
    | .MOTHER, .PARENTAL_AUNT_PARENTAL => some .UTERINE
    | .MOTHER, .PARENTAL_AUNT_MATERNAL => some .UTERINE
    | .MOTHER, .MATERNAL_UNCLE_FULL => some .UTERINE
    | .MOTHER, .MATERNAL_UNCLE_PARENTAL => some .UTERINE
    | .MOTHER, .MATERNAL_UNCLE_MATERNAL => some .UTERINE
    | .MOTHER, .MATERNAL_AUNT_FULL => some .UTERINE
    | .MOTHER, .MATERNAL_AUNT_PARENTAL => some .UTERINE
    | .MOTHER, .MATERNAL_AUNT_MATERNAL => some .UTERINE
    -- UTERINE sink
    | .UTERINE, .FATHER => some .UTERINE
    | .UTERINE, .MOTHER => some .UTERINE
    | .UTERINE, .SON => some .UTERINE
    | .UTERINE, .DAUGHTER => some .UTERINE
    | _, _ => none

/--
The driver deduce_heir_type (heir_builder.py lines 131-135): start at SELF,
consume each lineage token; an event with no transition raises, modelled as
Except.error. Returns the final current state.
-/
def deduceHeirTypeFrom (s : HeirType) : List RelationshipType → Except Unit HeirType
  | [] => Except.ok s
  | t :: ts =>
    match heirTransition s t with
    | none => Except.error ()
    | some s2 => deduceHeirTypeFrom s2 ts

/-- deduce_heir_type on a whole lineage, starting from the initial state. -/
def deduceHeirType (lineage : List RelationshipType) : Except Unit HeirType :=
  deduceHeirTypeFrom HeirType.SELF lineage

/--
Modelled from the spec: the transition groups of section 4.3, written out
verbatim as a partial transition function. This definition follows the
words of the spec, not the source, and exists only to be compared with
heirTransition (the embedding of the source). The spec lists a SELF token
transition only from the SELF state.
-/
def specHeirTransition (s : HeirType) (t : RelationshipType) : Option HeirType :=
  match s, t with
  | .SELF, .HUSBAND => some .HUSBAND
  | .SELF, .WIFE => some .WIFE
  | .SELF, .FATHER => some .FATHER
  | .SELF, .MOTHER => some .MOTHER
  | .SELF, .SON => some .SON
  | .SELF, .DAUGHTER => some .DAUGHTER
  | .SELF, .BROTHER_FULL => some .BROTHER_FULL
  | .SELF, .BROTHER_PARENTAL => some .BROTHER_PARENTAL
  | .SELF, .BROTHER_MATERNAL => some .BROTHER_MATERNAL
  | .SELF, .SISTER_FULL => some .SISTER_FULL
  | .SELF, .SISTER_PARENTAL => some .SISTER_PARENTAL
  | .SELF, .SISTER_MATERNAL => some .SISTER_MATERNAL
  | .SELF, .PARENTAL_UNCLE_FULL => some .UNCLE_FULL
  | .SELF, .PARENTAL_UNCLE_PARENTAL => some .UNCLE_PARENTAL
  | .SELF, .PARENTAL_UNCLE_MATERNAL => some .UTERINE
  | .SELF, .PARENTAL_AUNT_FULL => some .UTERINE
  | .SELF, .PARENTAL_AUNT_PARENTAL => some .UTERINE
  | .SELF, .PARENTAL_AUNT_MATERNAL => some .UTERINE
  | .SELF, .MATERNAL_UNCLE_FULL => some .UTERINE
  | .SELF, .MATERNAL_UNCLE_PARENTAL => some .UTERINE
  | .SELF, .MATERNAL_UNCLE_MATERNAL => some .UTERINE
  | .SELF, .MATERNAL_AUNT_FULL => some .UTERINE
  | .SELF, .MATERNAL_AUNT_PARENTAL => some .UTERINE
  | .SELF, .MATERNAL_AUNT_MATERNAL => some .UTERINE
  | .SELF, .SELF => some .STRANGER
  | .SON, .SON => some .SON
  | .SON, .DAUGHTER => some .DAUGHTER
  | .DAUGHTER, .SON => some .UTERINE
  | .DAUGHTER, .DAUGHTER => some .UTERINE
  | .FATHER, .FATHER => some .FATHER
  | .FATHER, .MOTHER => some .MOTHER
  | .FATHER, .PARENTAL_UNCLE_FULL => some .UNCLE_FULL
  | .FATHER, .PARENTAL_UNCLE_PARENTAL => some .UNCLE_PARENTAL
  | .FATHER, .PARENTAL_UNCLE_MATERNAL => some .UTERINE
  | .FATHER, .PARENTAL_AUNT_FULL => some .UTERINE
  | .FATHER, .PARENTAL_AUNT_PARENTAL => some .UTERINE
  | .FATHER, .PARENTAL_AUNT_MATERNAL => some .UTERINE
  | .FATHER, .MATERNAL_UNCLE_FULL => some .UTERINE
  | .FATHER, .MATERNAL_UNCLE_PARENTAL => some .UTERINE
  | .FATHER, .MATERNAL_UNCLE_MATERNAL => some .UTERINE
  | .FATHER, .MATERNAL_AUNT_FULL => some .UTERINE
  | .FATHER, .MATERNAL_AUNT_PARENTAL => some .UTERINE
  | .FATHER, .MATERNAL_AUNT_MATERNAL => some .UTERINE
  | .MOTHER, .MOTHER => some .MOTHER
  | .MOTHER, .FATHER => some .UTERINE
  | .MOTHER, .PARENTAL_UNCLE_FULL => some .UTERINE
  | .MOTHER, .PARENTAL_UNCLE_PARENTAL => some .UTERINE
  | .MOTHER, .PARENTAL_UNCLE_MATERNAL => some .UTERINE
  | .MOTHER, .PARENTAL_AUNT_FULL => some .UTERINE
  | .MOTHER, .PARENTAL_AUNT_PARENTAL => some .UTERINE
  | .MOTHER, .PARENTAL_AUNT_MATERNAL => some .UTERINE
  | .MOTHER, .MATERNAL_UNCLE_FULL => some .UTERINE
  | .MOTHER, .MATERNAL_UNCLE_PARENTAL => some .UTERINE
  | .MOTHER, .MATERNAL_UNCLE_MATERNAL => some .UTERINE
  | .MOTHER, .MATERNAL_AUNT_FULL => some .UTERINE
  | .MOTHER, .MATERNAL_AUNT_PARENTAL => some .UTERINE
  | .MOTHER, .MATERNAL_AUNT_MATERNAL => some .UTERINE
  | .BROTHER_FULL, .SON => some .NEPHEW_FULL
  | .BROTHER_FULL, .DAUGHTER => some .UTERINE
  | .BROTHER_PARENTAL, .SON => some .NEPHEW_PARENTAL
  | .BROTHER_PARENTAL, .DAUGHTER => some .UTERINE
  | .BROTHER_MATERNAL, .SON => some .UTERINE
  | .BROTHER_MATERNAL, .DAUGHTER => some .UTERINE
  | .SISTER_FULL, .SON => some .UTERINE
  | .SISTER_FULL, .DAUGHTER => some .UTERINE
  | .SISTER_PARENTAL, .SON => some .UTERINE
  | .SISTER_PARENTAL, .DAUGHTER => some .UTERINE
  | .SISTER_MATERNAL, .SON => some .UTERINE
  | .SISTER_MATERNAL, .DAUGHTER => some .UTERINE
  | .NEPHEW_PARENTAL, .SON => some .NEPHEW_PARENTAL
  | .NEPHEW_PARENTAL, .DAUGHTER => some .UTERINE
  | .UNCLE_FULL, .SON => some .SON_UNCLE_FULL
  | .UNCLE_FULL, .DAUGHTER => some .UTERINE
  | .UNCLE_PARENTAL, .SON => some .SON_UNCLE_PARENTAL
  | .UNCLE_PARENTAL, .DAUGHTER => some .UTERINE
  | .SON_UNCLE_FULL, .SON => some .SON_UNCLE_FULL
  | .SON_UNCLE_FULL, .DAUGHTER => some .UTERINE
  | .SON_UNCLE_PARENTAL, .SON => some .SON_UNCLE_PARENTAL
  | .SON_UNCLE_PARENTAL, .DAUGHTER => some .UTERINE
  | .UTERINE, .FATHER => some .UTERINE
  | .UTERINE, .MOTHER => some .UTERINE
  | .UTERINE, .SON => some .UTERINE
  | .UTERINE, .DAUGHTER => some .UTERINE
  | _, _ => none

/-- LineageType from entities/family_tree.py: which side of the family a
collateral descends through. -/
inductive LineageType where
  | FULL
  | PARENTAL
  | MATERNAL
deriving DecidableEq, Repr, Fintype

/-- LineageOperation from entities/family_tree.py: the mutation applied to
the lineage when classifying a collateral. -/
inductive LineageOperation where
  | PUSH_RELATIONSHIP
  | POP_THEN_PUSH_RELATIONSHIP
  | PUSH_PARENTAL_RELATIONSHIP
deriving DecidableEq, Repr, Fintype

/-- RelationshipConfig from entities/family_tree.py. -/
structure RelationshipConfig where
  relationship_type : RelationshipType
  lineage_operation : LineageOperation
deriving DecidableEq, Repr

/--
ANCESTORS_SIBLINGS_RELATIONSHIPS (entities/family_tree.py lines 400-562),
the Sibling Classifier table. The outer dictionary has exactly the five
keys SELF, FATHER, MOTHER, GRANDFATHER, GRANDMOTHER; looking up any other
RelationshipType raises KeyError, modelled by none. The inner dictionaries
are keyed by LineageType and then by Gender; the gender level holds only
the MALE and FEMALE keys, so a Gender.UNKNOWN lookup raises KeyError,
modelled by none.
-/
def ANCESTORS_SIBLINGS_RELATIONSHIPS (key : RelationshipType)
    (side : LineageType) (gender : Gender) : Option RelationshipConfig :=
  match key with
  | .SELF =>
    match side, gender with
    | .FULL, .MALE =>
      some ⟨.BROTHER_FULL, .PUSH_RELATIONSHIP⟩
    | .FULL, .FEMALE =>
      some ⟨.SISTER_FULL, .PUSH_RELATIONSHIP⟩
    | .PARENTAL, .MALE =>
      some ⟨.BROTHER_PARENTAL, .PUSH_RELATIONSHIP⟩
    | .PARENTAL, .FEMALE =>
      some ⟨.SISTER_PARENTAL, .PUSH_RELATIONSHIP⟩
    | .MATERNAL, .MALE =>
      some ⟨.BROTHER_MATERNAL, .PUSH_RELATIONSHIP⟩
    | .MATERNAL, .FEMALE =>
      some ⟨.SISTER_MATERNAL, .PUSH_RELATIONSHIP⟩
    | _, .UNKNOWN => none
  | .FATHER =>
    match side, gender with
    | .FULL, .MALE =>
      some ⟨.PARENTAL_UNCLE_FULL, .POP_THEN_PUSH_RELATIONSHIP⟩
    | .FULL, .FEMALE =>
      some ⟨.PARENTAL_AUNT_FULL, .POP_THEN_PUSH_RELATIONSHIP⟩
    | .PARENTAL, .MALE =>
      some ⟨.PARENTAL_UNCLE_PARENTAL, .POP_THEN_PUSH_RELATIONSHIP⟩
    | .PARENTAL, .FEMALE =>
      some ⟨.PARENTAL_AUNT_PARENTAL, .POP_THEN_PUSH_RELATIONSHIP⟩
    | .MATERNAL, .MALE =>
      some ⟨.PARENTAL_UNCLE_MATERNAL, .POP_THEN_PUSH_RELATIONSHIP⟩
    | .MATERNAL, .FEMALE =>
      some ⟨.PARENTAL_AUNT_MATERNAL, .POP_THEN_PUSH_RELATIONSHIP⟩
    | _, .UNKNOWN => none
  | .MOTHER =>
    match side, gender with
    | .FULL, .MALE =>
      some ⟨.MATERNAL_UNCLE_FULL, .POP_THEN_PUSH_RELATIONSHIP⟩
    | .FULL, .FEMALE =>
      some ⟨.MATERNAL_AUNT_FULL, .POP_THEN_PUSH_RELATIONSHIP⟩
    | .PARENTAL, .MALE =>
      some ⟨.MATERNAL_UNCLE_PARENTAL, .POP_THEN_PUSH_RELATIONSHIP⟩
    | .PARENTAL, .FEMALE =>
      some ⟨.MATERNAL_AUNT_PARENTAL, .POP_THEN_PUSH_RELATIONSHIP⟩
    | .MATERNAL, .MALE =>
      some ⟨.MATERNAL_UNCLE_MATERNAL, .POP_THEN_PUSH_RELATIONSHIP⟩
    | .MATERNAL, .FEMALE =>
      some ⟨.MATERNAL_AUNT_MATERNAL, .POP_THEN_PUSH_RELATIONSHIP⟩
    | _, .UNKNOWN => none
  | .GRANDFATHER =>
    match side, gender with
    | .FULL, .MALE =>
      some ⟨.PARENTAL_UNCLE_FULL, .POP_THEN_PUSH_RELATIONSHIP⟩
    | .FULL, .FEMALE =>
      some ⟨.PARENTAL_AUNT_FULL, .POP_THEN_PUSH_RELATIONSHIP⟩
    | .PARENTAL, .MALE =>
      some ⟨.PARENTAL_UNCLE_PARENTAL, .POP_THEN_PUSH_RELATIONSHIP⟩
    | .PARENTAL, .FEMALE =>
      some ⟨.MATERNAL_AUNT_PARENTAL, .POP_THEN_PUSH_RELATIONSHIP⟩
    | .MATERNAL, .MALE =>
      some ⟨.PARENTAL_UNCLE_MATERNAL, .POP_THEN_PUSH_RELATIONSHIP⟩
    | .MATERNAL, .FEMALE =>
      some ⟨.MATERNAL_AUNT_MATERNAL, .POP_THEN_PUSH_RELATIONSHIP⟩
    | _, .UNKNOWN => none
  | .GRANDMOTHER =>
    match side, gender with
    | .FULL, .MALE =>
      some ⟨.MATERNAL_UNCLE_FULL, .POP_THEN_PUSH_RELATIONSHIP⟩
    | .FULL, .FEMALE =>
      some ⟨.MATERNAL_AUNT_FULL, .POP_THEN_PUSH_RELATIONSHIP⟩
    | .PARENTAL, .MALE =>
      some ⟨.MATERNAL_UNCLE_PARENTAL, .POP_THEN_PUSH_RELATIONSHIP⟩
    | .PARENTAL, .FEMALE =>
      some ⟨.MATERNAL_AUNT_PARENTAL, .POP_THEN_PUSH_RELATIONSHIP⟩
    | .MATERNAL, .MALE =>
      some ⟨.MATERNAL_UNCLE_MATERNAL, .POP_THEN_PUSH_RELATIONSHIP⟩
    | .MATERNAL, .FEMALE =>
      some ⟨.MATERNAL_AUNT_MATERNAL, .POP_THEN_PUSH_RELATIONSHIP⟩
    | _, .UNKNOWN => none
  | _ => none

/-- The relationship labels a relationship type counts as ancestral
(ANCESTOR_RELATIONSHIPS in entities/relationship.py). -/
def isAncestorType (t : RelationshipType) : Bool :=
  t = RelationshipType.FATHER ∨ t = RelationshipType.GRANDFATHER ∨
    t = RelationshipType.MOTHER ∨ t = RelationshipType.GRANDMOTHER

/-- Relationship.is_sibling from entities/relationship.py. -/
def isSiblingType (t : RelationshipType) : Bool :=
  t = RelationshipType.BROTHER_FULL ∨ t = RelationshipType.BROTHER_PARENTAL ∨
    t = RelationshipType.BROTHER_MATERNAL ∨ t = RelationshipType.SISTER_FULL ∨
    t = RelationshipType.SISTER_PARENTAL ∨ t = RelationshipType.SISTER_MATERNAL

/-- Relationship.is_uncle_or_aunt from entities/relationship.py. -/
def isUncleOrAuntType (t : RelationshipType) : Bool :=
  t = RelationshipType.PARENTAL_UNCLE_FULL ∨
    t = RelationshipType.PARENTAL_UNCLE_PARENTAL ∨
    t = RelationshipType.PARENTAL_UNCLE_MATERNAL ∨
    t = RelationshipType.PARENTAL_AUNT_FULL ∨
    t = RelationshipType.PARENTAL_AUNT_PARENTAL ∨
    t = RelationshipType.PARENTAL_AUNT_MATERNAL ∨
    t = RelationshipType.MATERNAL_UNCLE_FULL ∨
    t = RelationshipType.MATERNAL_UNCLE_PARENTAL ∨
    t = RelationshipType.MATERNAL_UNCLE_MATERNAL ∨
    t = RelationshipType.MATERNAL_AUNT_FULL ∨
    t = RelationshipType.MATERNAL_AUNT_PARENTAL ∨
    t = RelationshipType.MATERNAL_AUNT_MATERNAL

/-- Relationship.is_cousin from entities/relationship.py. -/
def isCousinType (t : RelationshipType) : Bool :=
  t = RelationshipType.COUSIN

/-- Relationship.is_nephew_or_niece from entities/relationship.py. -/
def isNephewOrNieceType (t : RelationshipType) : Bool :=
  t = RelationshipType.NEPHEW ∨ t = RelationshipType.NIECE

/--
Person value from entities/person.py, restricted to the fields that matter
for the value-equality claims about Relationship: the display name and the
gender. The remaining Person fields (religion, birth and death years, the
parent, spouse and child references) take part in the generated dataclass
equality in the same way and are omitted here; the graph shape itself is
modelled separately by FamilyGraph for the traversal claims.
-/
structure PersonV where
  name : String
  gender : Gender
deriving DecidableEq, Repr

/--
Relationship value from entities/relationship.py: person,
relationship_type, lineage.
-/
structure RelationshipV where
  person : PersonV
  relationship_type : RelationshipType
  lineage : List RelationshipType
deriving DecidableEq, Repr

/-- The .name attribute of a RelationshipType member, as used by the
__hash__ implementation of Relationship. -/
def relationshipTypeName : RelationshipType → String
  | .SELF => "SELF"
  | .FATHER => "FATHER"
  | .MOTHER => "MOTHER"
  | .GRANDFATHER => "GRANDFATHER"
  | .GRANDMOTHER => "GRANDMOTHER"
  | .BROTHER_FULL => "BROTHER_FULL"
  | .BROTHER_PARENTAL => "BROTHER_PARENTAL"
  | .BROTHER_MATERNAL => "BROTHER_MATERNAL"
  | .SISTER_FULL => "SISTER_FULL"
  | .SISTER_PARENTAL => "SISTER_PARENTAL"
  | .SISTER_MATERNAL => "SISTER_MATERNAL"
  | .PARENTAL_UNCLE_FULL => "PARENTAL_UNCLE_FULL"
  | .PARENTAL_UNCLE_PARENTAL => "PARENTAL_UNCLE_PARENTAL"
  | .PARENTAL_UNCLE_MATERNAL => "PARENTAL_UNCLE_MATERNAL"
  | .PARENTAL_AUNT_FULL => "PARENTAL_AUNT_FULL"
  | .PARENTAL_AUNT_PARENTAL => "PARENTAL_AUNT_PARENTAL"
  | .PARENTAL_AUNT_MATERNAL => "PARENTAL_AUNT_MATERNAL"
  | .MATERNAL_UNCLE_FULL => "MATERNAL_UNCLE_FULL"
  | .MATERNAL_UNCLE_PARENTAL => "MATERNAL_UNCLE_PARENTAL"
  | .MATERNAL_UNCLE_MATERNAL => "MATERNAL_UNCLE_MATERNAL"
  | .MATERNAL_AUNT_FULL => "MATERNAL_AUNT_FULL"
  | .MATERNAL_AUNT_PARENTAL => "MATERNAL_AUNT_PARENTAL"
  | .MATERNAL_AUNT_MATERNAL => "MATERNAL_AUNT_MATERNAL"
  | .COUSIN => "COUSIN"
  | .NEPHEW => "NEPHEW"
  | .NIECE => "NIECE"
  | .SON => "SON"
  | .DAUGHTER => "DAUGHTER"
  | .GRANDSON => "GRANDSON"
  | .GRANDDAUGHTER => "GRANDDAUGHTER"
  | .HUSBAND => "HUSBAND"
  | .WIFE => "WIFE"

/--
The key hashed by Relationship.__hash__ (entities/relationship.py lines
173-175): the lineage token names joined with a dash. Python hashes this
string with its built-in string hash; since that hash is a fixed function
of the string within a process, two Relationship values have equal hashes
exactly when their keys are hashed to equal values, and equal keys always
give equal hashes. The key itself is therefore the faithful model of the
hash for equality reasoning.
-/
def relationshipHashKey (r : RelationshipV) : String :=
  String.intercalate "-" (r.lineage.map relationshipTypeName)

/--
The equality test on Relationship values. Relationship is declared as a
frozen dataclass without a custom __eq__, so Python generates field
equality over (person, relationship_type, lineage); only __hash__ is
overridden. This definition spells that generated equality out.
-/
def relationshipPyEq (r1 r2 : RelationshipV) : Bool :=
  r1.person = r2.person ∧ r1.relationship_type = r2.relationship_type ∧
    r1.lineage = r2.lineage

/--
Modelled from the spec: the jurisprudence-school tag (madhhab) attached to
an Heir. The module entities/madhhab.py is not present under src; the spec
describes the field only as an optional school tag, so it is modelled as a
plain named tag.
-/
structure Madhhab where
  school : String
deriving DecidableEq, Repr

/-- Heir value from entities/heir.py. -/
structure Heir where
  person : PersonV
  heir_type : HeirType
  lineage : List RelationshipType
  madhhab : Option Madhhab := none
deriving DecidableEq, Repr

/-- Heir.is_stranger from entities/heir.py. -/
def Heir.is_stranger (h : Heir) : Bool :=
  h.heir_type = HeirType.STRANGER

/-- Heir.is_uterine from entities/heir.py. -/
def Heir.is_uterine (h : Heir) : Bool :=
  h.heir_type = HeirType.UTERINE

/-- Heir.is_fardh from entities/heir.py: the fixed-share categories. -/
def Heir.is_fardh (h : Heir) : Bool :=
  h.heir_type ∈ [HeirType.HUSBAND, HeirType.WIFE, HeirType.FATHER,
    HeirType.MOTHER, HeirType.DAUGHTER, HeirType.SISTER_FULL,
    HeirType.SISTER_PARENTAL, HeirType.SISTER_MATERNAL,
    HeirType.BROTHER_MATERNAL]

/-- Heir.is_taasib from entities/heir.py: the residuary categories. -/
def Heir.is_taasib (h : Heir) : Bool :=
  h.heir_type ∈ [HeirType.FATHER, HeirType.SON, HeirType.BROTHER_FULL,
    HeirType.BROTHER_PARENTAL, HeirType.UNCLE_FULL, HeirType.UNCLE_PARENTAL]

/--
The input Person graph for the Relationship Resolver. Persons are an arena
of n handles; object identity in Python (the id function used for the seen
sets) becomes equality of handles. The field accessors mirror the Person
attributes read by FamilyTree: gender, father, mother, children, spouses.
Python stores children and spouses as sets; they are modelled as lists,
with the no-duplicate property stated as a hypothesis where a theorem
needs it.
-/
structure FamilyGraph (n : Nat) where
  focal : Fin n
  gender : Fin n → Gender
  father : Fin n → Option (Fin n)
  mother : Fin n → Option (Fin n)
  children : Fin n → List (Fin n)
  spouses : Fin n → List (Fin n)

variable {n : Nat}

/--
A Relationship record produced by the traversal (the Relationship values
stored into FamilyTree._relationships), plus one ghost field: trail is the
list of persons the traversal stepped through to reach this person, one
entry per parent or child edge, in order. The traversal never reads trail;
it only appends to it, so it does not influence control flow or the other
fields. It exists so that theorems can speak about the number of edges
traversed to reach a person.
-/
structure TraversalRel (n : Nat) where
  person : Fin n
  relationship_type : RelationshipType
  lineage : List RelationshipType
  trail : List (Fin n)
deriving DecidableEq, Repr

/-- relationship.is_ancestor or relationship.relationship_type == SELF,
the guard from FamilyTree._process_ancestors lines 252-254. -/
def isAncestorIncludingSelf (t : RelationshipType) : Bool :=
  isAncestorType t || t = RelationshipType.SELF

/--
The stack entry pushed by FamilyTree._process_descendants for a child of
an already recorded descendant (lines 206-226): the relationship type is
GRANDSON or GRANDDAUGHTER by the gender of the grandchild itself, while
the appended lineage token is SON or DAUGHTER by the gender of the
intermediate parent (the popped relationship's person).
-/
def mkGrandchildRel (g : FamilyGraph n) (rel : TraversalRel n)
    (grandchild : Fin n) : TraversalRel n :=
  { person := grandchild,
      relationship_type :=
      if g.gender grandchild = Gender.MALE then RelationshipType.GRANDSON
      else RelationshipType.GRANDDAUGHTER,
      lineage := rel.lineage ++
      [if g.gender rel.person = Gender.MALE then RelationshipType.SON
       else RelationshipType.DAUGHTER],
      trail := rel.trail ++ [grandchild] }

/-- The initial descendant stack (lines 176-190): one SON or DAUGHTER
relationship per child of the focal person. -/
def descInitStack (g : FamilyGraph n) : List (TraversalRel n) :=
  (g.children g.focal).map fun child =>
    { person := child,
        relationship_type :=
        if g.gender child = Gender.MALE then RelationshipType.SON
        else RelationshipType.DAUGHTER,
        lineage :=
        [if g.gender child = Gender.MALE then RelationshipType.SON
         else RelationshipType.DAUGHTER],
        trail := [child] }

/--
The stack loop of FamilyTree._process_descendants (lines 192-226). Each
call pops one relationship; a person already in the seen set raises the
circular-reference ValueError (Except.error); otherwise the relationship
is recorded and one stack entry per child of the person is pushed. The
seen set is carried as the list of recorded relationships (membership is
by person handle, matching the id-based Python set); fuel bounds the
number of iterations and a dedicated theorem shows the fuel used by
processDescendants is always sufficient. The order in which a Python set
iterates its children is unspecified, so the push order chosen here is one
admissible order; none of the stated properties depend on it.
-/
def descLoop (g : FamilyGraph n) :
    Nat → List (TraversalRel n) → List (TraversalRel n) →
      Option (Except Unit (List (TraversalRel n)))
  | 0, _, _ => none
  | _ + 1, [], popped => some (Except.ok popped)
  | fuel + 1, rel :: rest, popped =>
    if rel.person ∈ popped.map TraversalRel.person then some (Except.error ())
    else
      descLoop g fuel
        ((g.children rel.person).map (mkGrandchildRel g rel) ++ rest)
        (rel :: popped)

/-- FamilyTree._process_descendants: run the descendant loop on the initial
stack. At most n distinct persons can be recorded, so n + 1 iterations
always suffice. -/
def processDescendants (g : FamilyGraph n) :
    Option (Except Unit (List (TraversalRel n))) :=
  descLoop g (n + 1) (descInitStack g) []

/--
FamilyTree._create_parent_relationships (lines 308-338): push the father
as FATHER (or GRANDFATHER when the popped relationship is already an
ancestor) and the mother as MOTHER (or GRANDMOTHER), appending one FATHER
or MOTHER lineage token; an absent parent contributes nothing.
-/
def createParentRelationships (g : FamilyGraph n) (rel : TraversalRel n) :
    List (TraversalRel n) :=
  (match g.father rel.person with
   | some f =>
     [{ person := f,
          relationship_type :=
          if isAncestorType rel.relationship_type then RelationshipType.GRANDFATHER
          else RelationshipType.FATHER,
          lineage := rel.lineage ++ [RelationshipType.FATHER],
          trail := rel.trail ++ [f] }]
   | none => []) ++
  (match g.mother rel.person with
   | some m =>
     [{ person := m,
          relationship_type :=
          if isAncestorType rel.relationship_type then RelationshipType.GRANDMOTHER
          else RelationshipType.MOTHER,
          lineage := rel.lineage ++ [RelationshipType.MOTHER],
          trail := rel.trail ++ [m] }]
   | none => [])

/--
The body of the classification loop of FamilyTree._collect_siblings
(lines 361-395) for one candidate sibling: look up the configuration in
ANCESTORS_SIBLINGS_RELATIONSHIPS (a missing key raises, modelled by
Except.error) and apply the lineage operation; popping from an empty
lineage raises IndexError, also modelled by Except.error. The via argument
is the shared parent through which the traversal reaches the candidate;
it feeds only the ghost trail.
-/
def classifySibling (g : FamilyGraph n) (rel : TraversalRel n) (via : Fin n)
    (side : LineageType) (child : Fin n) : Except Unit (TraversalRel n) :=
  match ANCESTORS_SIBLINGS_RELATIONSHIPS rel.relationship_type side
      (g.gender child) with
  | none => Except.error ()
  | some config =>
    match config.lineage_operation with
    | .PUSH_RELATIONSHIP =>
      Except.ok
        { person := child,
          relationship_type := config.relationship_type,
          lineage := rel.lineage ++ [config.relationship_type],
          trail := rel.trail ++ [via, child] }
    | .POP_THEN_PUSH_RELATIONSHIP =>
      if rel.lineage = [] then Except.error ()
      else
        Except.ok
          { person := child,
            relationship_type := config.relationship_type,
            lineage := rel.lineage.dropLast ++ [config.relationship_type],
            trail := rel.trail ++ [via, child] }
    | .PUSH_PARENTAL_RELATIONSHIP =>
      Except.ok
        { person := child,
          relationship_type := config.relationship_type,
          lineage := rel.lineage ++
            [if g.gender child = Gender.MALE then RelationshipType.SON
             else RelationshipType.DAUGHTER],
          trail := rel.trail ++ [via, child] }

/-- An effectful map over a list in the Except monad, written out
recursively so that its equations are directly available to proofs. -/
def mapMExcept {α β : Type} (f : α → Except Unit β) :
    List α → Except Unit (List β)
  | [] => Except.ok []
  | a :: as =>
    match f a with
    | Except.error e => Except.error e
    | Except.ok b =>
      match mapMExcept f as with
      | Except.error e => Except.error e
      | Except.ok bs => Except.ok (b :: bs)

/-- The local variable parental_brothers of FamilyTree._collect_siblings
(lines 348-351): the children of the person's father other than the person
itself, or the empty set when the father is absent. -/
def parentalBrothers (g : FamilyGraph n) (rel : TraversalRel n) :
    List (Fin n) :=
  match g.father rel.person with
  | some f => (g.children f).filter fun c => decide (c ≠ rel.person)
  | none => []

/-- The local variable maternal_brothers of FamilyTree._collect_siblings
(lines 352-355). -/
def maternalBrothers (g : FamilyGraph n) (rel : TraversalRel n) :
    List (Fin n) :=
  match g.mother rel.person with
  | some m => (g.children m).filter fun c => decide (c ≠ rel.person)
  | none => []

/-- The local variable full_brothers (line 357): the intersection of the
paternal and maternal candidate sets. -/
def fullBrothers (g : FamilyGraph n) (rel : TraversalRel n) : List (Fin n) :=
  (parentalBrothers g rel).filter fun c => decide (c ∈ maternalBrothers g rel)

/-- The paternal-only candidate set after removing the full siblings
(line 358). -/
def parentalOnlyBrothers (g : FamilyGraph n) (rel : TraversalRel n) :
    List (Fin n) :=
  (parentalBrothers g rel).filter fun c => decide (c ∉ fullBrothers g rel)

/-- The maternal-only candidate set after removing the full siblings
(line 359). -/
def maternalOnlyBrothers (g : FamilyGraph n) (rel : TraversalRel n) :
    List (Fin n) :=
  (maternalBrothers g rel).filter fun c => decide (c ∉ fullBrothers g rel)

/--
FamilyTree._collect_siblings (lines 340-397): partition the children of
the popped person's parents into full, paternal-only and maternal-only
candidate siblings and classify each through the table. Python builds the
three groups as sets; here the same groups are computed by list filtering
(the local variables of the source become the named definitions above),
which coincides with the set computation when the children lists carry no
duplicates. The shared parent used for the ghost trail is the father for
the full and paternal groups and the mother for the maternal group; when
the corresponding parent is absent the group is empty and the default
value passed as via is never used.
-/
def collectSiblings (g : FamilyGraph n) (rel : TraversalRel n) :
    Except Unit (List (TraversalRel n)) :=
  match mapMExcept
      (classifySibling g rel ((g.father rel.person).getD rel.person)
        LineageType.FULL) (fullBrothers g rel) with
  | Except.error e => Except.error e
  | Except.ok fullRels =>
    match mapMExcept
        (classifySibling g rel ((g.father rel.person).getD rel.person)
          LineageType.PARENTAL) (parentalOnlyBrothers g rel) with
    | Except.error e => Except.error e
    | Except.ok parentalRels =>
      match mapMExcept
          (classifySibling g rel ((g.mother rel.person).getD rel.person)
            LineageType.MATERNAL) (maternalOnlyBrothers g rel) with
      | Except.error e => Except.error e
      | Except.ok maternalRels =>
        Except.ok (fullRels ++ parentalRels ++ maternalRels)

/-- The stack entries pushed for the children of a sibling or nephew or
niece relationship (lines 266-288), and for the children of an uncle or
aunt or cousin relationship (lines 289-306). -/
def mkDescentRel (g : FamilyGraph n) (rel : TraversalRel n)
    (rt : RelationshipType) (child : Fin n) : TraversalRel n :=
  { person := child,
      relationship_type := rt,
      lineage := rel.lineage ++
      [if g.gender child = Gender.MALE then RelationshipType.SON
       else RelationshipType.DAUGHTER],
      trail := rel.trail ++ [child] }

/--
The stack loop of FamilyTree._process_ancestors (lines 236-306). A person
already in the seen set is skipped, not an error; otherwise the
relationship is recorded, and the stack is extended according to the kind
of relationship popped: parents plus classified siblings for an ancestor
or the SELF sentinel, children as NEPHEW or NIECE for a sibling or a
nephew or niece, children as COUSIN for an uncle or aunt or a cousin.
Only sibling pushes are pre-filtered against the seen set, exactly as in
the source. The push order within one iteration is one admissible order of
the Python set iterations; no stated property depends on it.
-/
def ancLoop (g : FamilyGraph n) :
    Nat → List (TraversalRel n) → List (TraversalRel n) →
      Option (Except Unit (List (TraversalRel n)))
  | 0, _, _ => none
  | _ + 1, [], popped => some (Except.ok popped)
  | fuel + 1, rel :: rest, popped =>
    if rel.person ∈ popped.map TraversalRel.person then
      ancLoop g fuel rest popped
    else
      let popped2 := rel :: popped
      if isAncestorIncludingSelf rel.relationship_type then
        match collectSiblings g rel with
        | Except.error e => some (Except.error e)
        | Except.ok sibs =>
          ancLoop g fuel
            ((sibs.filter fun s =>
                decide (s.person ∉ popped2.map TraversalRel.person)) ++
              createParentRelationships g rel ++ rest) popped2
      else if isSiblingType rel.relationship_type ||
          isNephewOrNieceType rel.relationship_type then
        ancLoop g fuel
          (((g.children rel.person).map fun child =>
              mkDescentRel g rel
                (if g.gender child = Gender.MALE then RelationshipType.NEPHEW
                 else RelationshipType.NIECE) child) ++ rest) popped2
      else if isUncleOrAuntType rel.relationship_type ||
          isCousinType rel.relationship_type then
        ancLoop g fuel
          (((g.children rel.person).map fun child =>
              mkDescentRel g rel RelationshipType.COUSIN child) ++ rest)
          popped2
      else
        ancLoop g fuel rest popped2

/-- The total number of child edges of the graph, used to bound the stack
growth of the ancestor loop. -/
def totalChildren (g : FamilyGraph n) : Nat :=
  Finset.univ.sum fun p => (g.children p).length

/-- Fuel sufficient for the ancestor loop: each recorded person pushes at
most 2 parents plus at most three filtered groups of siblings, each group
bounded by the total child count. -/
def ancFuel (g : FamilyGraph n) : Nat :=
  n * (3 + 3 * totalChildren g) + 2

/-- The initial stack entry of the ancestor pass: the SELF sentinel for
the focal person, with an empty lineage. -/
def selfRel (g : FamilyGraph n) : TraversalRel n :=
  { person := g.focal,
      relationship_type := RelationshipType.SELF,
      lineage := [],
      trail := [] }

/-- FamilyTree._process_ancestors: run the ancestor loop from the SELF
sentinel. -/
def processAncestors (g : FamilyGraph n) :
    Option (Except Unit (List (TraversalRel n))) :=
  ancLoop g (ancFuel g) [selfRel g] []

/-- The spouse pass of FamilyTree._generate_relationships (lines 154-167):
each spouse of the focal person is recorded as HUSBAND when the focal
person is female and as WIFE otherwise, with a single-token lineage. -/
def processSpouses (g : FamilyGraph n) : List (TraversalRel n) :=
  (g.spouses g.focal).map fun s =>
    { person := s,
        relationship_type :=
        if g.gender g.focal = Gender.FEMALE then RelationshipType.HUSBAND
        else RelationshipType.WIFE,
        lineage :=
        [if g.gender g.focal = Gender.FEMALE then RelationshipType.HUSBAND
         else RelationshipType.WIFE],
        trail := [s] }

/--
FamilyTree._generate_relationships, the body of resolve: the descendant
pass, then the ancestor pass, then the spouse pass. An exception raised by
a pass propagates; the recorded relationships of the passes are gathered
into one list (the Relationship Index collapses to this list of records,
since the index keyed by relationship type carries no extra information).
-/
def resolve (g : FamilyGraph n) : Option (Except Unit (List (TraversalRel n))) :=
  match processDescendants g with
  | none => none
  | some (Except.error e) => some (Except.error e)
  | some (Except.ok descRels) =>
    match processAncestors g with
    | none => none
    | some (Except.error e) => some (Except.error e)
    | some (Except.ok ancRels) =>
      some (Except.ok (descRels ++ ancRels ++ processSpouses g))

/-- A person's relationship type is one of the collateral labels: sibling,
uncle or aunt, nephew or niece, cousin. These are exactly the labels whose
lineage encodes a multi-edge detour through a shared parent. -/
def isCollateralType (t : RelationshipType) : Bool :=
  isSiblingType t || isUncleOrAuntType t || isNephewOrNieceType t ||
    isCousinType t

/-- A chain of child edges: isChildChain g q l holds when l lists persons
such that the first is a child of q and each next one is a child of the
previous one. -/
def isChildChain (g : FamilyGraph n) : Fin n → List (Fin n) → Bool
  | _, [] => true
  | q, c :: t => decide (c ∈ g.children q) && isChildChain g c t

/-- There are two distinct descending paths from the focal person to one
and the same person; equivalently, the descendant traversal revisits a
person. -/
def TwoPaths (g : FamilyGraph n) : Prop :=
  ∃ l1 l2 : List (Fin n),
    isChildChain g g.focal l1 = true ∧ isChildChain g g.focal l2 = true ∧
    l1 ≠ [] ∧ l2 ≠ [] ∧ l1.getLast? = l2.getLast? ∧ l1 ≠ l2

theorem isChildChain_append (g : FamilyGraph n) (l1 l2 : List (Fin n)) :
    ∀ q, isChildChain g q (l1 ++ l2) =
      (isChildChain g q l1 && isChildChain g (l1.getLastD q) l2) := by
  induction l1 with
  | nil => intro q; simp [isChildChain]
  | cons c t ih =>
    intro q
    simp only [List.cons_append, isChildChain, List.append_eq, ih c,
      List.getLastD_cons, Bool.and_assoc]

theorem isChildChain_concat (g : FamilyGraph n) (q : Fin n)
    (l : List (Fin n)) (c : Fin n) :
    isChildChain g q (l ++ [c]) =
      (isChildChain g q l && decide (c ∈ g.children (l.getLastD q))) := by
  rw [isChildChain_append]
  simp [isChildChain]

/-- The traversal invariant tying a stack or recorded entry to the graph:
its ghost trail is a real chain of child edges from the focal person and
ends at the entry's person. -/
def PathOk (g : FamilyGraph n) (it : TraversalRel n) : Prop :=
  isChildChain g g.focal it.trail = true ∧
    it.trail.getLast? = some it.person

theorem PathOk.trail_ne_nil {g : FamilyGraph n} {it : TraversalRel n}
    (h : PathOk g it) : it.trail ≠ [] := by
  intro hnil
  have h2 := h.2
  rw [hnil] at h2
  exact Option.noConfusion h2

theorem PathOk.getLastD {g : FamilyGraph n} {it : TraversalRel n}
    (h : PathOk g it) (q : Fin n) : it.trail.getLastD q = it.person := by
  rw [List.getLastD_eq_getLast?, h.2]
  rfl

/-- The per-entry facts of the descendant pass needed for the lineage
length claims: the lineage is exactly as long as the trail (one token per
edge) and the relationship type is never a collateral label. -/
def DescLenOk (g : FamilyGraph n) (it : TraversalRel n) : Prop :=
  it.lineage.length = it.trail.length ∧
    isCollateralType it.relationship_type = false

theorem descLenOk_mkGrandchildRel (g : FamilyGraph n) (rel : TraversalRel n)
    (c : Fin n) (h : DescLenOk g rel) :
    DescLenOk g (mkGrandchildRel g rel c) := by
  constructor
  · simp [mkGrandchildRel, h.1]
  · by_cases hc : g.gender c = Gender.MALE <;>
      simp [mkGrandchildRel, hc, isCollateralType, isSiblingType,
        isUncleOrAuntType, isNephewOrNieceType, isCousinType]

/-- All entries recorded by a successful run of the descendant loop keep
the one-token-per-edge property, provided the entries already on the
stack and already recorded have it. -/
theorem descLoop_lens (g : FamilyGraph n) :
    ∀ (fuel : Nat) (stack popped res : List (TraversalRel n)),
      (∀ it ∈ stack ++ popped, DescLenOk g it) →
      descLoop g fuel stack popped = some (Except.ok res) →
      ∀ it ∈ res, DescLenOk g it := by
  intro fuel
  induction fuel with
  | zero => intro stack popped res _ hrun; exact absurd hrun (by simp [descLoop])
  | succ fuel ih =>
    intro stack popped res hall hrun
    match stack with
    | [] =>
      simp only [descLoop, Option.some.injEq, Except.ok.injEq] at hrun
      subst hrun
      intro it hit
      exact hall it (by simpa using hit)
    | rel :: rest =>
      simp only [descLoop] at hrun
      by_cases hmem : rel.person ∈ popped.map TraversalRel.person
      · simp [hmem] at hrun
      · rw [if_neg hmem] at hrun
        refine ih _ _ _ ?_ hrun
        intro it hit
        rcases List.mem_append.mp hit with h1 | h2
        · rcases List.mem_append.mp h1 with hpush | hrest
          · rcases List.mem_map.mp hpush with ⟨c, _, hc⟩
            exact hc ▸ descLenOk_mkGrandchildRel g rel c
              (hall rel (by simp))
          · exact hall it (by simp [hrest])
        · rcases List.mem_cons.mp h2 with hreleq | hpop
          · exact hreleq ▸ hall rel (by simp)
          · exact hall it (by simp [hpop])

/--
Every entry on the stack or already recorded ends up in the result of a
successful run of the descendant loop, and for every stack entry, all the
grandchild entries it will push end up there too.
-/
theorem descLoop_mem (g : FamilyGraph n) :
    ∀ (fuel : Nat) (stack popped res : List (TraversalRel n)),
      descLoop g fuel stack popped = some (Except.ok res) →
      (∀ it ∈ stack ++ popped, it ∈ res) ∧
      (∀ it ∈ stack, ∀ c ∈ g.children it.person,
        mkGrandchildRel g it c ∈ res) := by
  intro fuel
  induction fuel with
  | zero => intro stack popped res hrun; exact absurd hrun (by simp [descLoop])
  | succ fuel ih =>
    intro stack popped res hrun
    match stack with
    | [] =>
      simp only [descLoop, Option.some.injEq, Except.ok.injEq] at hrun
      subst hrun
      exact ⟨fun it hit => by simpa using hit, fun it hit => absurd hit
        (List.not_mem_nil it)⟩
    | rel :: rest =>
      simp only [descLoop] at hrun
      by_cases hmem : rel.person ∈ popped.map TraversalRel.person
      · simp [hmem] at hrun
      · rw [if_neg hmem] at hrun
        obtain ⟨ihmem, ihpush⟩ := ih _ _ _ hrun
        constructor
        · intro it hit
          rcases List.mem_append.mp hit with h1 | h2
          · rcases List.mem_cons.mp h1 with hreleq | hrest
            · exact hreleq ▸ ihmem rel (by simp)
            · exact ihmem it (by simp [hrest])
          · exact ihmem it (by simp [h2])
        · intro it hit c hc
          rcases List.mem_cons.mp hit with hreleq | hrest
          · subst hreleq
            exact ihmem (mkGrandchildRel g it c)
              (List.mem_append_left _ (List.mem_append_left _
                (List.mem_map_of_mem _ hc)))
          · exact ihpush it (by simp [hrest]) c hc

/--
Fuel sufficiency for the descendant loop: every iteration either stops or
records a person not recorded before, so one unit of fuel per unrecorded
person plus one final unit always suffices. This is the termination
argument of the descendant pass.
-/
theorem descLoop_ne_none (g : FamilyGraph n) :
    ∀ (fuel : Nat) (stack popped : List (TraversalRel n)),
      (Finset.univ \ (popped.map TraversalRel.person).toFinset).card + 1 ≤
        fuel →
      descLoop g fuel stack popped ≠ none := by
  intro fuel
  induction fuel with
  | zero =>
    intro stack popped hcard
    exact absurd hcard (by simp)
  | succ fuel ih =>
    intro stack popped hcard
    match stack with
    | [] => simp [descLoop]
    | rel :: rest =>
      simp only [descLoop]
      by_cases hmem : rel.person ∈ popped.map TraversalRel.person
      · simp [hmem]
      · rw [if_neg hmem]
        apply ih
        have hnotin : rel.person ∉ (popped.map TraversalRel.person).toFinset :=
          fun hc => hmem (List.mem_toFinset.mp hc)
        have hins :
            ((rel :: popped).map TraversalRel.person).toFinset =
              insert rel.person (popped.map TraversalRel.person).toFinset := by
          simp [List.toFinset_cons]
        rw [hins]
        have hcard2 :
            (Finset.univ \
                insert rel.person
                  (popped.map TraversalRel.person).toFinset).card <
              (Finset.univ \ (popped.map TraversalRel.person).toFinset).card := by
          apply Finset.card_lt_card
          constructor
          · intro x hx
            rcases Finset.mem_sdiff.mp hx with ⟨hx1, hx2⟩
            exact Finset.mem_sdiff.mpr ⟨hx1, fun hc => hx2 (Finset.mem_insert_of_mem hc)⟩
          · intro hsub
            have : rel.person ∈ Finset.univ \
                (popped.map TraversalRel.person).toFinset :=
              Finset.mem_sdiff.mpr ⟨Finset.mem_univ _, hnotin⟩
            have := hsub this
            rcases Finset.mem_sdiff.mp this with ⟨_, habs⟩
            exact habs (Finset.mem_insert_self _ _)
        omega

/--
The full invariant of the descendant loop relating the stack and the
recorded list to the graph: every entry carries a real child-edge chain
ending at its person; the chains are pairwise distinct; every proper
nonempty prefix of a carried chain has already been recorded; recorded
persons are pairwise distinct; and every nonempty child chain of the
graph either is already recorded or extends the chain of some stack
entry.
-/
def DInv (g : FamilyGraph n) (stack popped : List (TraversalRel n)) : Prop :=
  (∀ it ∈ stack ++ popped, PathOk g it) ∧
  ((stack ++ popped).map TraversalRel.trail).Nodup ∧
  (∀ it ∈ stack ++ popped, ∀ ρ : List (Fin n), ρ ≠ [] → ρ <+: it.trail →
    ρ ≠ it.trail → ρ ∈ popped.map TraversalRel.trail) ∧
  (popped.map TraversalRel.person).Nodup ∧
  (∀ l : List (Fin n), isChildChain g g.focal l = true → l ≠ [] →
    l ∈ popped.map TraversalRel.trail ∨ ∃ it ∈ stack, it.trail <+: l)

theorem prefix_concat_cases {α : Type} (ρ l : List α) (c : α)
    (h : ρ <+: l ++ [c]) : ρ = l ++ [c] ∨ ρ <+: l := by
  by_cases heq : ρ.length = (l ++ [c]).length
  · exact Or.inl (h.eq_of_length heq)
  · refine Or.inr (List.prefix_of_prefix_length_le h (List.prefix_append l [c]) ?_)
    have h1 := h.length_le
    simp only [List.length_append, List.length_cons, List.length_nil] at h1 heq
    omega

theorem proper_prefix_decomp {α : Type} {ρ l : List α} (h : ρ <+: l)
    (hne : ρ ≠ l) : ∃ c t, l = ρ ++ c :: t := by
  rcases h with ⟨s, hs⟩
  match s with
  | [] => exact absurd (by simpa using hs) hne
  | c :: t => exact ⟨c, t, hs.symm⟩

theorem DInv_step (g : FamilyGraph n) (hnd : ∀ p, (g.children p).Nodup)
    (rel : TraversalRel n) (rest popped : List (TraversalRel n))
    (hmem : rel.person ∉ popped.map TraversalRel.person)
    (hinv : DInv g (rel :: rest) popped) :
    DInv g ((g.children rel.person).map (mkGrandchildRel g rel) ++ rest)
      (rel :: popped) := by
  obtain ⟨hpath, hnodupT, hpre, hnodupP, hcomp⟩ := hinv
  have hrelmem : rel ∈ (rel :: rest) ++ popped := by simp
  have hrelPath : PathOk g rel := hpath rel hrelmem
  have hsplit : ∀ it : TraversalRel n,
      it ∈ ((g.children rel.person).map (mkGrandchildRel g rel) ++ rest) ++
          rel :: popped →
      (∃ c ∈ g.children rel.person, mkGrandchildRel g rel c = it) ∨
        it ∈ (rel :: rest) ++ popped := by
    intro it hit
    rcases List.mem_append.mp hit with h1 | h2
    · rcases List.mem_append.mp h1 with hp | hr
      · rcases List.mem_map.mp hp with ⟨c, hc, hceq⟩
        exact Or.inl ⟨c, hc, hceq⟩
      · exact Or.inr (by simp [hr])
    · rcases List.mem_cons.mp h2 with he | hp
      · exact Or.inr (by simp [he])
      · exact Or.inr (by simp [hp])
  have hreltrail_notin : rel.trail ∉ (rest ++ popped).map TraversalRel.trail := by
    have : ((rel :: rest) ++ popped).map TraversalRel.trail =
        rel.trail :: (rest ++ popped).map TraversalRel.trail := by simp
    rw [this] at hnodupT
    exact (List.nodup_cons.mp hnodupT).1
  refine ⟨?_, ?_, ?_, ?_, ?_⟩
  -- 1. PathOk for every entry
  · intro it hit
    rcases hsplit it hit with ⟨c, hc, hceq⟩ | hitold
    · subst hceq
      constructor
      · have h1 : (mkGrandchildRel g rel c).trail = rel.trail ++ [c] := rfl
        rw [h1, isChildChain_concat, hrelPath.getLastD g.focal]
        simp [hrelPath.1, hc]
      · have h1 : (mkGrandchildRel g rel c).trail = rel.trail ++ [c] := rfl
        rw [h1, List.getLast?_concat]
        rfl
    · exact hpath it hitold
  -- 2. the carried chains stay pairwise distinct
  · have hperm : List.Perm
        ((((g.children rel.person).map (mkGrandchildRel g rel) ++ rest) ++
          rel :: popped).map TraversalRel.trail)
        ((((g.children rel.person).map (mkGrandchildRel g rel)) ++
          ((rel :: rest) ++ popped)).map TraversalRel.trail) := by
      apply List.Perm.map
      rw [List.append_assoc]
      apply List.Perm.append_left
      exact List.perm_middle
    rw [hperm.nodup_iff]
    rw [List.map_append, List.nodup_append]
    refine ⟨?_, hnodupT, ?_⟩
    · rw [List.map_map]
      have hinj : Function.Injective
          (TraversalRel.trail ∘ mkGrandchildRel g rel) := by
        intro a b hab
        have hab2 : rel.trail ++ [a] = rel.trail ++ [b] := hab
        have := List.append_cancel_left hab2
        simpa using this
      exact (hnd rel.person).map hinj
    · intro x hxP hxOld
      rcases List.mem_map.mp hxP with ⟨it2, hit2, hx2⟩
      rcases List.mem_map.mp hit2 with ⟨c, _, hceq⟩
      rcases List.mem_map.mp hxOld with ⟨jt, hjt, hjx⟩
      have hxform : x = rel.trail ++ [c] := by rw [← hx2, ← hceq]; rfl
      have hρ : rel.trail ∈ popped.map TraversalRel.trail := by
        apply hpre jt hjt rel.trail hrelPath.trail_ne_nil
        · rw [hjx, hxform]; exact List.prefix_append _ _
        · rw [hjx, hxform]
          intro habs
          have := congrArg List.length habs
          simp at this
      exact hreltrail_notin (by
        rcases List.mem_map.mp hρ with ⟨kt, hkt, hkx⟩
        exact List.mem_map.mpr ⟨kt, List.mem_append_right _ hkt, hkx⟩)
  -- 3. proper prefixes of carried chains are already recorded
  · intro it hit ρ hρne hρpre hρneq
    rcases hsplit it hit with ⟨c, hc, hceq⟩ | hitold
    · subst hceq
      have hρpre2 : ρ <+: rel.trail ++ [c] := hρpre
      rcases prefix_concat_cases ρ rel.trail c hρpre2 with heq | hpre2
      · exact absurd heq hρneq
      · by_cases heq2 : ρ = rel.trail
        · subst heq2
          exact List.mem_map.mpr ⟨rel, List.mem_cons_self _ _, rfl⟩
        · have := hpre rel hrelmem ρ hρne hpre2 heq2
          rcases List.mem_map.mp this with ⟨kt, hkt, hkx⟩
          exact List.mem_map.mpr ⟨kt, List.mem_cons_of_mem _ hkt, hkx⟩
    · have := hpre it hitold ρ hρne hρpre hρneq
      rcases List.mem_map.mp this with ⟨kt, hkt, hkx⟩
      exact List.mem_map.mpr ⟨kt, List.mem_cons_of_mem _ hkt, hkx⟩
  -- 4. recorded persons stay pairwise distinct
  · rw [List.map_cons, List.nodup_cons]
    exact ⟨hmem, hnodupP⟩
  -- 5. completeness
  · intro l hchain hlne
    rcases hcomp l hchain hlne with hrec | ⟨it, hit, hpre2⟩
    · left
      rcases List.mem_map.mp hrec with ⟨kt, hkt, hkx⟩
      exact List.mem_map.mpr ⟨kt, List.mem_cons_of_mem _ hkt, hkx⟩
    · rcases List.mem_cons.mp hit with heq | hrest
      · subst heq
        by_cases heq2 : l = it.trail
        · left
          exact List.mem_map.mpr ⟨it, List.mem_cons_self _ _, heq2.symm⟩
        · obtain ⟨c, t, hlt⟩ :=
            proper_prefix_decomp hpre2 (fun h => heq2 h.symm)
          have hc : c ∈ g.children it.person := by
            rw [hlt, isChildChain_append] at hchain
            rw [(hpath it (by simp)).getLastD g.focal] at hchain
            have := (Bool.and_eq_true _ _).mp hchain
            have h2 := this.2
            rw [isChildChain] at h2
            exact of_decide_eq_true ((Bool.and_eq_true _ _).mp h2).1
          right
          refine ⟨mkGrandchildRel g it c, ?_, ?_⟩
          · exact List.mem_append_left _ (List.mem_map_of_mem _ hc)
          · have h1 : (mkGrandchildRel g it c).trail = it.trail ++ [c] := rfl
            rw [h1, hlt]
            exact ⟨t, by simp⟩
      · right
        exact ⟨it, List.mem_append_right _ hrest, hpre2⟩

theorem DInv_init (g : FamilyGraph n) (hnd : ∀ p, (g.children p).Nodup) :
    DInv g (descInitStack g) [] := by
  refine ⟨?_, ?_, ?_, by simp, ?_⟩
  · intro it hit
    simp only [List.append_nil] at hit
    rcases List.mem_map.mp hit with ⟨c, hc, hceq⟩
    subst hceq
    constructor
    · simp [isChildChain, hc]
    · rfl
  · simp only [List.append_nil, descInitStack, List.map_map]
    have hinj : Function.Injective (fun c : Fin n =>
        ([c] : List (Fin n))) := by
      intro a b hab
      simpa using hab
    have : (TraversalRel.trail ∘ fun child : Fin n =>
        ({ person := child,
           relationship_type :=
             if g.gender child = Gender.MALE then RelationshipType.SON
             else RelationshipType.DAUGHTER,
           lineage :=
             [if g.gender child = Gender.MALE then RelationshipType.SON
              else RelationshipType.DAUGHTER],
           trail := [child] } : TraversalRel n)) = fun c => [c] := rfl
    rw [this]
    exact (hnd g.focal).map hinj
  · intro it hit ρ hρne hρpre hρneq
    simp only [List.append_nil] at hit
    rcases List.mem_map.mp hit with ⟨c, _, hceq⟩
    subst hceq
    exact absurd (hρpre.eq_of_length (by
      have h1 := hρpre.length_le
      have h2 : ρ.length ≠ 0 := fun h => hρne (List.length_eq_zero.mp h)
      simp only [List.length_cons, List.length_nil] at h1 ⊢
      omega)) hρneq
  · intro l hchain hlne
    match l with
    | c :: t =>
      right
      rw [isChildChain] at hchain
      have hc := of_decide_eq_true ((Bool.and_eq_true _ _).mp hchain).1
      refine ⟨_, List.mem_map_of_mem _ hc, ⟨t, rfl⟩⟩

/-- When the descendant loop has emptied its stack, no two distinct paths
can exist: both would have been recorded, forcing two records with the
same person. -/
theorem DInv_final_no_TwoPaths (g : FamilyGraph n)
    (res : List (TraversalRel n)) (hinv : DInv g [] res) : ¬ TwoPaths g := by
  rintro ⟨l1, l2, hc1, hc2, hne1, hne2, hlast, hne⟩
  obtain ⟨hpath, _, _, hnodupP, hcomp⟩ := hinv
  have h1 := hcomp l1 hc1 hne1
  have h2 := hcomp l2 hc2 hne2
  simp only [List.not_mem_nil, false_and, exists_false, or_false,
    List.mem_map] at h1 h2
  obtain ⟨jt1, hjt1, hjt1x⟩ := h1
  obtain ⟨jt2, hjt2, hjt2x⟩ := h2
  have hp1 : l1.getLast? = some jt1.person := by
    rw [← hjt1x]; exact (hpath jt1 (by simp [hjt1])).2
  have hp2 : l2.getLast? = some jt2.person := by
    rw [← hjt2x]; exact (hpath jt2 (by simp [hjt2])).2
  have hpe : jt1.person = jt2.person := by
    have := hp1.symm.trans (hlast.trans hp2)
    exact Option.some.inj this
  have : jt1 = jt2 := List.inj_on_of_nodup_map hnodupP hjt1 hjt2 hpe
  exact hne (by rw [← hjt1x, ← hjt2x, this])

/--
The master theorem of the descendant loop: from any state satisfying the
invariant, an error outcome exhibits two distinct descending paths to one
person, and a success outcome re-establishes the invariant with an empty
stack (so the recorded list accounts for every descending chain).
-/
theorem descLoop_master (g : FamilyGraph n)
    (hnd : ∀ p, (g.children p).Nodup) :
    ∀ (fuel : Nat) (stack popped : List (TraversalRel n)),
      DInv g stack popped →
      (descLoop g fuel stack popped = some (Except.error ()) → TwoPaths g) ∧
      (∀ res, descLoop g fuel stack popped = some (Except.ok res) →
        DInv g [] res) := by
  intro fuel
  induction fuel with
  | zero =>
    intro stack popped _
    exact ⟨fun h => absurd h (by simp [descLoop]),
      fun res h => absurd h (by simp [descLoop])⟩
  | succ fuel ih =>
    intro stack popped hinv
    match stack with
    | [] =>
      constructor
      · intro h
        simp [descLoop] at h
      · intro res h
        simp only [descLoop, Option.some.injEq, Except.ok.injEq] at h
        exact h ▸ hinv
    | rel :: rest =>
      by_cases hmem : rel.person ∈ popped.map TraversalRel.person
      · constructor
        · intro _
          obtain ⟨hpath, hnodupT, _, _, _⟩ := hinv
          rcases List.mem_map.mp hmem with ⟨jt, hjt, hjteq⟩
          have hrelPath : PathOk g rel := hpath rel (by simp)
          have hjtPath : PathOk g jt := hpath jt (by simp [hjt])
          refine ⟨rel.trail, jt.trail, hrelPath.1, hjtPath.1,
            hrelPath.trail_ne_nil, hjtPath.trail_ne_nil, ?_, ?_⟩
          · rw [hrelPath.2, hjtPath.2, hjteq]
          · have hreltrail_notin :
                rel.trail ∉ (rest ++ popped).map TraversalRel.trail := by
              have h1 : ((rel :: rest) ++ popped).map TraversalRel.trail =
                  rel.trail :: (rest ++ popped).map TraversalRel.trail := by
                simp
              rw [h1] at hnodupT
              exact (List.nodup_cons.mp hnodupT).1
            intro habs
            exact hreltrail_notin (habs ▸ List.mem_map.mpr
              ⟨jt, List.mem_append_right _ hjt, rfl⟩)
        · intro res h
          simp [descLoop, hmem] at h
      · have hstep := DInv_step g hnd rel rest popped hmem hinv
        have hrec := ih _ _ hstep
        constructor
        · intro h
          simp only [descLoop, if_neg hmem] at h
          exact hrec.1 h
        · intro res h
          simp only [descLoop, if_neg hmem] at h
          exact hrec.2 res h

/--
The descendant pass raises the structural error exactly when some person
is reachable from the focal person by two distinct descending paths,
which is exactly when the traversal would revisit a person.
-/
theorem processDescendants_error_iff (g : FamilyGraph n)
    (hnd : ∀ p, (g.children p).Nodup) :
    processDescendants g = some (Except.error ()) ↔ TwoPaths g := by
  constructor
  · intro h
    exact (descLoop_master g hnd (n + 1) (descInitStack g) []
      (DInv_init g hnd)).1 h
  · intro htwo
    have hnn : descLoop g (n + 1) (descInitStack g) [] ≠ none := by
      apply descLoop_ne_none
      simp [Finset.card_univ]
    rcases hres : descLoop g (n + 1) (descInitStack g) [] with _ | r
    · exact absurd hres hnn
    · match r with
      | Except.error e =>
        cases e
        exact hres
      | Except.ok res =>
        have := (descLoop_master g hnd (n + 1) (descInitStack g) []
          (DInv_init g hnd)).2 res hres
        exact absurd htwo (DInv_final_no_TwoPaths g res this)

/-- The invariant of ancestor-pass stack entries that rules out the
IndexError branch of the pop-then-push lineage operation: only the SELF
sentinel carries an empty lineage. -/
def AncOk (it : TraversalRel n) : Prop :=
  it.relationship_type = RelationshipType.SELF ∨ it.lineage ≠ []

/-- The per-entry facts of the ancestor pass needed for the lineage
length claims: an ancestor or SELF entry has exactly one lineage token
per traversed edge, and every other entry reachable in this pass is a
collateral whose lineage is strictly shorter than its edge count. -/
def AncLenOk (it : TraversalRel n) : Prop :=
  (isAncestorIncludingSelf it.relationship_type = true →
    it.lineage.length = it.trail.length) ∧
  (isAncestorIncludingSelf it.relationship_type = false →
    isCollateralType it.relationship_type = true ∧
      it.lineage.length < it.trail.length)

theorem table_isSome_of_anc (t : RelationshipType) (side : LineageType)
    (gd : Gender) (ht : isAncestorIncludingSelf t = true)
    (hg : gd ≠ Gender.UNKNOWN) :
    (ANCESTORS_SIBLINGS_RELATIONSHIPS t side gd).isSome = true := by
  revert ht hg
  revert t side gd
  decide

theorem table_self_push (side : LineageType) (gd : Gender)
    (config : RelationshipConfig)
    (h : ANCESTORS_SIBLINGS_RELATIONSHIPS RelationshipType.SELF side gd =
      some config) :
    config.lineage_operation = LineageOperation.PUSH_RELATIONSHIP := by
  match side, gd with
  | .FULL, .MALE => exact (Option.some.inj h) ▸ rfl
  | .FULL, .FEMALE => exact (Option.some.inj h) ▸ rfl
  | .PARENTAL, .MALE => exact (Option.some.inj h) ▸ rfl
  | .PARENTAL, .FEMALE => exact (Option.some.inj h) ▸ rfl
  | .MATERNAL, .MALE => exact (Option.some.inj h) ▸ rfl
  | .MATERNAL, .FEMALE => exact (Option.some.inj h) ▸ rfl
  | .FULL, .UNKNOWN => exact Option.noConfusion h
  | .PARENTAL, .UNKNOWN => exact Option.noConfusion h
  | .MATERNAL, .UNKNOWN => exact Option.noConfusion h

/-- Every configuration stored in the sibling classification table targets
a collateral relationship type, never an ancestor or SELF label. -/
theorem table_config_collateral (t : RelationshipType) (side : LineageType)
    (gd : Gender) :
    (ANCESTORS_SIBLINGS_RELATIONSHIPS t side gd).all
      (fun config => isCollateralType config.relationship_type &&
        !isAncestorIncludingSelf config.relationship_type) = true := by
  revert t side gd
  decide

theorem anc_not_collateral (t : RelationshipType)
    (h : isAncestorIncludingSelf t = true) : isCollateralType t = false := by
  revert h
  revert t
  decide

theorem mapMExcept_ok_of_forall {α β : Type} (f : α → Except Unit β) :
    ∀ l : List α, (∀ a ∈ l, ∃ b, f a = Except.ok b) →
      ∃ out, mapMExcept f l = Except.ok out := by
  intro l
  induction l with
  | nil => exact fun _ => ⟨[], rfl⟩
  | cons a as ih =>
    intro hall
    obtain ⟨b, hb⟩ := hall a (by simp)
    obtain ⟨out, hout⟩ := ih fun x hx => hall x (by simp [hx])
    exact ⟨b :: out, by simp [mapMExcept, hb, hout]⟩

theorem mapMExcept_length {α β : Type} (f : α → Except Unit β) :
    ∀ (l : List α) (out : List β), mapMExcept f l = Except.ok out →
      out.length = l.length := by
  intro l
  induction l with
  | nil =>
    intro out h
    simp only [mapMExcept, Except.ok.injEq] at h
    simp [← h]
  | cons a as ih =>
    intro out h
    simp only [mapMExcept] at h
    match hfa : f a with
    | Except.error e => rw [hfa] at h; exact Except.noConfusion h
    | Except.ok b =>
      rw [hfa] at h
      match hrec : mapMExcept f as with
      | Except.error e => rw [hrec] at h; exact Except.noConfusion h
      | Except.ok bs =>
        rw [hrec] at h
        have := Except.ok.inj h
        rw [← this]
        simp [ih bs hrec]

theorem mapMExcept_mem {α β : Type} (f : α → Except Unit β) :
    ∀ (l : List α) (out : List β), mapMExcept f l = Except.ok out →
      ∀ b ∈ out, ∃ a ∈ l, f a = Except.ok b := by
  intro l
  induction l with
  | nil =>
    intro out h b hb
    simp only [mapMExcept, Except.ok.injEq] at h
    rw [← h] at hb
    exact absurd hb (List.not_mem_nil b)
  | cons a as ih =>
    intro out h b hb
    simp only [mapMExcept] at h
    match hfa : f a with
    | Except.error e => rw [hfa] at h; exact Except.noConfusion h
    | Except.ok b0 =>
      rw [hfa] at h
      match hrec : mapMExcept f as with
      | Except.error e => rw [hrec] at h; exact Except.noConfusion h
      | Except.ok bs =>
        rw [hrec] at h
        have := Except.ok.inj h
        rw [← this] at hb
        rcases List.mem_cons.mp hb with hb0 | hbs
        · exact ⟨a, by simp, hb0 ▸ hfa⟩
        · obtain ⟨a2, ha2, hfa2⟩ := ih bs hrec b hbs
          exact ⟨a2, by simp [ha2], hfa2⟩

theorem createParentRelationships_mem (g : FamilyGraph n)
    (rel it : TraversalRel n)
    (h : it ∈ createParentRelationships g rel) :
    it.lineage ≠ [] ∧ it.lineage.length = rel.lineage.length + 1 ∧
      it.trail.length = rel.trail.length + 1 ∧
      isAncestorIncludingSelf it.relationship_type = true := by
  unfold createParentRelationships at h
  rcases List.mem_append.mp h with h1 | h2
  · match hf : g.father rel.person with
    | some f =>
      rw [hf] at h1
      rcases List.mem_singleton.mp h1 with rfl
      refine ⟨by simp, by simp, by simp, ?_⟩
      cases hanc : isAncestorType rel.relationship_type <;>
        simp only [hanc] <;> decide
    | none => rw [hf] at h1; exact absurd h1 (List.not_mem_nil it)
  · match hm : g.mother rel.person with
    | some m =>
      rw [hm] at h2
      rcases List.mem_singleton.mp h2 with rfl
      refine ⟨by simp, by simp, by simp, ?_⟩
      cases hanc : isAncestorType rel.relationship_type <;>
        simp only [hanc] <;> decide
    | none => rw [hm] at h2; exact absurd h2 (List.not_mem_nil it)

theorem classifySibling_ok (g : FamilyGraph n) (rel : TraversalRel n)
    (via : Fin n) (side : LineageType) (c : Fin n)
    (ht : isAncestorIncludingSelf rel.relationship_type = true)
    (hanc : AncOk rel) (hg : g.gender c ≠ Gender.UNKNOWN) :
    ∃ out, classifySibling g rel via side c = Except.ok out := by
  have hsome := table_isSome_of_anc rel.relationship_type side (g.gender c)
    ht hg
  obtain ⟨config, hconfig⟩ := Option.isSome_iff_exists.mp hsome
  unfold classifySibling
  rw [hconfig]
  cases hop : config.lineage_operation with
  | PUSH_RELATIONSHIP =>
    simp only [hop]
    exact ⟨_, rfl⟩
  | POP_THEN_PUSH_RELATIONSHIP =>
    have hne : rel.lineage ≠ [] := by
      rcases hanc with hself | hne
      · rw [hself] at hconfig
        have := table_self_push side (g.gender c) config hconfig
        rw [this] at hop
        exact LineageOperation.noConfusion hop
      · exact hne
    simp only [hop]
    rw [if_neg hne]
    exact ⟨_, rfl⟩
  | PUSH_PARENTAL_RELATIONSHIP =>
    simp only [hop]
    exact ⟨_, rfl⟩

theorem classifySibling_out_props (g : FamilyGraph n) (rel : TraversalRel n)
    (via : Fin n) (side : LineageType) (c : Fin n) (out : TraversalRel n)
    (h : classifySibling g rel via side c = Except.ok out) :
    out.lineage ≠ [] ∧ out.lineage.length ≤ rel.lineage.length + 1 ∧
      out.trail.length = rel.trail.length + 2 ∧
      isCollateralType out.relationship_type = true ∧
      isAncestorIncludingSelf out.relationship_type = false := by
  unfold classifySibling at h
  match hconfig : ANCESTORS_SIBLINGS_RELATIONSHIPS rel.relationship_type side
      (g.gender c) with
  | none =>
    simp only [hconfig] at h
    exact Except.noConfusion h
  | some config =>
    simp only [hconfig] at h
    have hcoll := table_config_collateral rel.relationship_type side
      (g.gender c)
    rw [hconfig] at hcoll
    simp only [Option.all_some, Bool.and_eq_true, Bool.not_eq_true'] at hcoll
    cases hop : config.lineage_operation with
    | PUSH_RELATIONSHIP =>
      simp only [hop] at h
      have hout := Except.ok.inj h
      rw [← hout]
      exact ⟨by simp, by simp, by simp, hcoll.1, hcoll.2⟩
    | POP_THEN_PUSH_RELATIONSHIP =>
      simp only [hop] at h
      by_cases hne : rel.lineage = []
      · rw [if_pos hne] at h; exact Except.noConfusion h
      · rw [if_neg hne] at h
        have hout := Except.ok.inj h
        rw [← hout]
        refine ⟨by simp, ?_, by simp, hcoll.1, hcoll.2⟩
        simp only [List.length_append, List.length_dropLast,
          List.length_cons, List.length_nil]
        omega
    | PUSH_PARENTAL_RELATIONSHIP =>
      simp only [hop] at h
      have hout := Except.ok.inj h
      rw [← hout]
      exact ⟨by simp, by simp, by simp, hcoll.1, hcoll.2⟩

theorem collectSiblings_ok (g : FamilyGraph n) (rel : TraversalRel n)
    (ht : isAncestorIncludingSelf rel.relationship_type = true)
    (hanc : AncOk rel) (hg : ∀ p, g.gender p ≠ Gender.UNKNOWN) :
    ∃ sibs, collectSiblings g rel = Except.ok sibs := by
  have h1 := fun (via : Fin n) (side : LineageType) (lst : List (Fin n)) =>
    mapMExcept_ok_of_forall (classifySibling g rel via side) lst
      fun c _ => classifySibling_ok g rel via side c ht hanc (hg c)
  obtain ⟨o1, ho1⟩ := h1 ((g.father rel.person).getD rel.person)
    LineageType.FULL (fullBrothers g rel)
  obtain ⟨o2, ho2⟩ := h1 ((g.father rel.person).getD rel.person)
    LineageType.PARENTAL (parentalOnlyBrothers g rel)
  obtain ⟨o3, ho3⟩ := h1 ((g.mother rel.person).getD rel.person)
    LineageType.MATERNAL (maternalOnlyBrothers g rel)
  refine ⟨o1 ++ o2 ++ o3, ?_⟩
  unfold collectSiblings
  rw [ho1, ho2, ho3]

theorem collectSiblings_props (g : FamilyGraph n) (rel : TraversalRel n)
    (sibs : List (TraversalRel n))
    (h : collectSiblings g rel = Except.ok sibs) :
    ∀ s ∈ sibs, s.lineage ≠ [] ∧
      s.lineage.length ≤ rel.lineage.length + 1 ∧
      s.trail.length = rel.trail.length + 2 ∧
      isCollateralType s.relationship_type = true ∧
      isAncestorIncludingSelf s.relationship_type = false := by
  unfold collectSiblings at h
  match h1 : mapMExcept
      (classifySibling g rel ((g.father rel.person).getD rel.person)
        LineageType.FULL) (fullBrothers g rel) with
  | Except.error e => rw [h1] at h; exact Except.noConfusion h
  | Except.ok o1 =>
    rw [h1] at h
    match h2 : mapMExcept
        (classifySibling g rel ((g.father rel.person).getD rel.person)
          LineageType.PARENTAL) (parentalOnlyBrothers g rel) with
    | Except.error e => rw [h2] at h; exact Except.noConfusion h
    | Except.ok o2 =>
      rw [h2] at h
      match h3 : mapMExcept
          (classifySibling g rel ((g.mother rel.person).getD rel.person)
            LineageType.MATERNAL) (maternalOnlyBrothers g rel) with
      | Except.error e => rw [h3] at h; exact Except.noConfusion h
      | Except.ok o3 =>
        rw [h3] at h
        have hsibs := Except.ok.inj h
        intro s hs
        rw [← hsibs] at hs
        rcases List.mem_append.mp hs with h12 | hs3
        · rcases List.mem_append.mp h12 with hs1 | hs2
          · obtain ⟨c, _, hc⟩ := mapMExcept_mem _ _ _ h1 s hs1
            exact classifySibling_out_props g rel _ _ c s hc
          · obtain ⟨c, _, hc⟩ := mapMExcept_mem _ _ _ h2 s hs2
            exact classifySibling_out_props g rel _ _ c s hc
        · obtain ⟨c, _, hc⟩ := mapMExcept_mem _ _ _ h3 s hs3
          exact classifySibling_out_props g rel _ _ c s hc

theorem children_le_totalChildren (g : FamilyGraph n) (p : Fin n) :
    (g.children p).length ≤ totalChildren g :=
  Finset.single_le_sum (fun i _ => Nat.zero_le ((g.children i).length))
    (Finset.mem_univ p)

theorem parentalBrothers_le (g : FamilyGraph n) (rel : TraversalRel n) :
    (parentalBrothers g rel).length ≤ totalChildren g := by
  unfold parentalBrothers
  match g.father rel.person with
  | some f =>
    exact le_trans (List.length_filter_le _ _) (children_le_totalChildren g f)
  | none => simp

theorem maternalBrothers_le (g : FamilyGraph n) (rel : TraversalRel n) :
    (maternalBrothers g rel).length ≤ totalChildren g := by
  unfold maternalBrothers
  match g.mother rel.person with
  | some m =>
    exact le_trans (List.length_filter_le _ _) (children_le_totalChildren g m)
  | none => simp

theorem collectSiblings_length (g : FamilyGraph n) (rel : TraversalRel n)
    (sibs : List (TraversalRel n))
    (h : collectSiblings g rel = Except.ok sibs) :
    sibs.length ≤ 3 * totalChildren g := by
  unfold collectSiblings at h
  match h1 : mapMExcept
      (classifySibling g rel ((g.father rel.person).getD rel.person)
        LineageType.FULL) (fullBrothers g rel) with
  | Except.error e => rw [h1] at h; exact Except.noConfusion h
  | Except.ok o1 =>
    rw [h1] at h
    match h2 : mapMExcept
        (classifySibling g rel ((g.father rel.person).getD rel.person)
          LineageType.PARENTAL) (parentalOnlyBrothers g rel) with
    | Except.error e => rw [h2] at h; exact Except.noConfusion h
    | Except.ok o2 =>
      rw [h2] at h
      match h3 : mapMExcept
          (classifySibling g rel ((g.mother rel.person).getD rel.person)
            LineageType.MATERNAL) (maternalOnlyBrothers g rel) with
      | Except.error e => rw [h3] at h; exact Except.noConfusion h
      | Except.ok o3 =>
        rw [h3] at h
        have hsibs := Except.ok.inj h
        have hl1 : o1.length ≤ totalChildren g := by
          rw [mapMExcept_length _ _ _ h1]
          exact le_trans (List.length_filter_le _ _)
            (parentalBrothers_le g rel)
        have hl2 : o2.length ≤ totalChildren g := by
          rw [mapMExcept_length _ _ _ h2]
          exact le_trans (List.length_filter_le _ _)
            (parentalBrothers_le g rel)
        have hl3 : o3.length ≤ totalChildren g := by
          rw [mapMExcept_length _ _ _ h3]
          exact le_trans (List.length_filter_le _ _)
            (maternalBrothers_le g rel)
        rw [← hsibs]
        simp only [List.length_append]
        omega

theorem createParentRelationships_length (g : FamilyGraph n)
    (rel : TraversalRel n) :
    (createParentRelationships g rel).length ≤ 2 := by
  unfold createParentRelationships
  match g.father rel.person, g.mother rel.person with
  | some f, some m => simp
  | some f, none => simp
  | none, some m => simp
  | none, none => simp

/--
The ancestor pass never raises: the KeyError branch of the table lookup is
unreachable because the table is total on the five ancestor keys and on
known genders, and the IndexError branch of the pop-then-push operation is
unreachable because only the SELF sentinel carries an empty lineage and
the SELF row of the table only pushes. This also establishes the claim
that a person missing a father or mother never raises: a missing parent
merely contributes no stack entry.
-/
theorem ancLoop_no_error (g : FamilyGraph n)
    (hg : ∀ p, g.gender p ≠ Gender.UNKNOWN) :
    ∀ (fuel : Nat) (stack popped : List (TraversalRel n)),
      (∀ it ∈ stack, AncOk it) →
      ancLoop g fuel stack popped ≠ some (Except.error ()) := by
  intro fuel
  induction fuel with
  | zero => intro stack popped _; simp [ancLoop]
  | succ fuel ih =>
    intro stack popped hstack
    match stack with
    | [] => simp [ancLoop]
    | rel :: rest =>
      simp only [ancLoop]
      by_cases hmem : rel.person ∈ popped.map TraversalRel.person
      · rw [if_pos hmem]
        exact ih rest popped fun it hit => hstack it (by simp [hit])
      · rw [if_neg hmem]
        by_cases hanc : isAncestorIncludingSelf rel.relationship_type = true
        · rw [if_pos hanc]
          obtain ⟨sibs, hsibs⟩ :=
            collectSiblings_ok g rel hanc (hstack rel (by simp)) hg
          rw [hsibs]
          apply ih
          intro it hit
          rcases List.mem_append.mp hit with h1 | hrest
          · rcases List.mem_append.mp h1 with hsib | hpar
            · exact Or.inr (collectSiblings_props g rel sibs hsibs it
                (List.mem_of_mem_filter hsib)).1
            · exact Or.inr (createParentRelationships_mem g rel it hpar).1
          · exact hstack it (by simp [hrest])
        · rw [if_neg hanc]
          by_cases hsib : (isSiblingType rel.relationship_type ||
              isNephewOrNieceType rel.relationship_type) = true
          · rw [if_pos hsib]
            apply ih
            intro it hit
            rcases List.mem_append.mp hit with hpush | hrest
            · rcases List.mem_map.mp hpush with ⟨c, _, hceq⟩
              exact Or.inr (by rw [← hceq]; simp [mkDescentRel])
            · exact hstack it (by simp [hrest])
          · rw [if_neg hsib]
            by_cases hunc : (isUncleOrAuntType rel.relationship_type ||
                isCousinType rel.relationship_type) = true
            · rw [if_pos hunc]
              apply ih
              intro it hit
              rcases List.mem_append.mp hit with hpush | hrest
              · rcases List.mem_map.mp hpush with ⟨c, _, hceq⟩
                exact Or.inr (by rw [← hceq]; simp [mkDescentRel])
              · exact hstack it (by simp [hrest])
            · rw [if_neg hunc]
              exact ih rest (rel :: popped)
                fun it hit => hstack it (by simp [hit])

/--
Fuel sufficiency for the ancestor loop: each iteration either shrinks the
stack without recording anyone, or records a new person while pushing at
most two parents and three sibling groups each bounded by the total child
count of the graph.
-/
theorem ancLoop_ne_none (g : FamilyGraph n) :
    ∀ (fuel : Nat) (stack popped : List (TraversalRel n)),
      stack.length +
        (Finset.univ \ (popped.map TraversalRel.person).toFinset).card *
          (3 + 3 * totalChildren g) + 1 ≤ fuel →
      ancLoop g fuel stack popped ≠ none := by
  intro fuel
  induction fuel with
  | zero => intro stack popped hcard; exact absurd hcard (by simp)
  | succ fuel ih =>
    intro stack popped hcard
    match stack with
    | [] => simp [ancLoop]
    | rel :: rest =>
      simp only [ancLoop]
      by_cases hmem : rel.person ∈ popped.map TraversalRel.person
      · rw [if_pos hmem]
        apply ih
        simp only [List.length_cons] at hcard
        omega
      · rw [if_neg hmem]
        have hnotin :
            rel.person ∉ (popped.map TraversalRel.person).toFinset :=
          fun hc => hmem (List.mem_toFinset.mp hc)
        have hins : ((rel :: popped).map TraversalRel.person).toFinset =
            insert rel.person (popped.map TraversalRel.person).toFinset := by
          simp [List.toFinset_cons]
        have hpos :
            0 < (Finset.univ \
              (popped.map TraversalRel.person).toFinset).card :=
          Finset.card_pos.mpr
            ⟨rel.person, Finset.mem_sdiff.mpr ⟨Finset.mem_univ _, hnotin⟩⟩
        have hlt : (Finset.univ \
              insert rel.person
                (popped.map TraversalRel.person).toFinset).card <
            (Finset.univ \ (popped.map TraversalRel.person).toFinset).card := by
          apply Finset.card_lt_card
          constructor
          · intro x hx
            rcases Finset.mem_sdiff.mp hx with ⟨hx1, hx2⟩
            exact Finset.mem_sdiff.mpr
              ⟨hx1, fun hc => hx2 (Finset.mem_insert_of_mem hc)⟩
          · intro hsub
            have h0 : rel.person ∈ Finset.univ \
                (popped.map TraversalRel.person).toFinset :=
              Finset.mem_sdiff.mpr ⟨Finset.mem_univ _, hnotin⟩
            rcases Finset.mem_sdiff.mp (hsub h0) with ⟨_, habs⟩
            exact habs (Finset.mem_insert_self _ _)
        have hmul : (Finset.univ \
              insert rel.person
                (popped.map TraversalRel.person).toFinset).card *
              (3 + 3 * totalChildren g) +
              (3 + 3 * totalChildren g) ≤
            (Finset.univ \ (popped.map TraversalRel.person).toFinset).card *
              (3 + 3 * totalChildren g) := by
          have h1 : (Finset.univ \
                insert rel.person
                  (popped.map TraversalRel.person).toFinset).card + 1 ≤
              (Finset.univ \ (popped.map TraversalRel.person).toFinset).card :=
            hlt
          calc (Finset.univ \
                insert rel.person
                  (popped.map TraversalRel.person).toFinset).card *
                (3 + 3 * totalChildren g) + (3 + 3 * totalChildren g)
              = ((Finset.univ \
                insert rel.person
                  (popped.map TraversalRel.person).toFinset).card + 1) *
                (3 + 3 * totalChildren g) := by ring
            _ ≤ (Finset.univ \
                (popped.map TraversalRel.person).toFinset).card *
                (3 + 3 * totalChildren g) :=
                Nat.mul_le_mul_right _ h1
        by_cases hanc : isAncestorIncludingSelf rel.relationship_type = true
        · rw [if_pos hanc]
          match hsibs : collectSiblings g rel with
          | Except.error e => simp
          | Except.ok sibs =>
            apply ih
            rw [hins]
            have hsl : sibs.length ≤ 3 * totalChildren g :=
              collectSiblings_length g rel sibs hsibs
            have hfl : (sibs.filter fun s =>
                decide (s.person ∉
                  (rel :: popped).map TraversalRel.person)).length ≤
                sibs.length := List.length_filter_le _ _
            have hpl := createParentRelationships_length g rel
            simp only [List.length_append, List.length_cons] at hcard ⊢
            omega
        · rw [if_neg hanc]
          by_cases hsib : (isSiblingType rel.relationship_type ||
              isNephewOrNieceType rel.relationship_type) = true
          · rw [if_pos hsib]
            apply ih
            rw [hins]
            have hcl := children_le_totalChildren g rel.person
            simp only [List.length_append, List.length_map,
              List.length_cons] at hcard ⊢
            omega
          · rw [if_neg hsib]
            by_cases hunc : (isUncleOrAuntType rel.relationship_type ||
                isCousinType rel.relationship_type) = true
            · rw [if_pos hunc]
              apply ih
              rw [hins]
              have hcl := children_le_totalChildren g rel.person
              simp only [List.length_append, List.length_map,
                List.length_cons] at hcard ⊢
              omega
            · rw [if_neg hunc]
              apply ih
              rw [hins]
              simp only [List.length_cons] at hcard ⊢
              omega

theorem ancLenOk_of_collateral {it : TraversalRel n}
    (hcoll : isCollateralType it.relationship_type = true)
    (hanc : isAncestorIncludingSelf it.relationship_type = false)
    (hlt : it.lineage.length < it.trail.length) : AncLenOk it := by
  constructor
  · intro hcontra
    rw [hanc] at hcontra
    exact Bool.noConfusion hcontra
  · intro _
    exact ⟨hcoll, hlt⟩

theorem ancLenOk_of_ancestor {it : TraversalRel n}
    (hanc : isAncestorIncludingSelf it.relationship_type = true)
    (heq : it.lineage.length = it.trail.length) : AncLenOk it := by
  constructor
  · intro _
    exact heq
  · intro hcontra
    rw [hanc] at hcontra
    exact Bool.noConfusion hcontra

/-- Entries recorded by a successful ancestor loop satisfy the length
relation between lineage and traversed edges, provided the entries on the
stack and already recorded do. -/
theorem ancLoop_lens (g : FamilyGraph n) :
    ∀ (fuel : Nat) (stack popped res : List (TraversalRel n)),
      (∀ it ∈ stack ++ popped, AncLenOk it) →
      ancLoop g fuel stack popped = some (Except.ok res) →
      ∀ it ∈ res, AncLenOk it := by
  intro fuel
  induction fuel with
  | zero =>
    intro stack popped res _ hrun
    exact absurd hrun (by simp [ancLoop])
  | succ fuel ih =>
    intro stack popped res hall hrun
    match stack with
    | [] =>
      simp only [ancLoop, Option.some.injEq, Except.ok.injEq] at hrun
      subst hrun
      intro it hit
      exact hall it (by simpa using hit)
    | rel :: rest =>
      simp only [ancLoop] at hrun
      have hrelLen : AncLenOk rel := hall rel (by simp)
      by_cases hmem : rel.person ∈ popped.map TraversalRel.person
      · rw [if_pos hmem] at hrun
        exact ih rest popped res
          (fun it hit => hall it (by
            rcases List.mem_append.mp hit with h1 | h2
            · simp [h1]
            · simp [h2])) hrun
      · rw [if_neg hmem] at hrun
        by_cases hanc : isAncestorIncludingSelf rel.relationship_type = true
        · rw [if_pos hanc] at hrun
          match hsibs : collectSiblings g rel with
          | Except.error e =>
            rw [hsibs] at hrun
            simp at hrun
          | Except.ok sibs =>
            rw [hsibs] at hrun
            refine ih _ _ res ?_ hrun
            intro it hit
            have heq := hrelLen.1 hanc
            rcases List.mem_append.mp hit with h1 | h2
            · rcases List.mem_append.mp h1 with h3 | hrest
              · rcases List.mem_append.mp h3 with hsib | hpar
                · obtain ⟨hne, hlen, htrail, hcoll, hnotanc⟩ :=
                    collectSiblings_props g rel sibs hsibs it
                      (List.mem_of_mem_filter hsib)
                  exact ancLenOk_of_collateral hcoll hnotanc (by omega)
                · obtain ⟨_, hlen, htrail, hancout⟩ :=
                    createParentRelationships_mem g rel it hpar
                  exact ancLenOk_of_ancestor hancout (by omega)
              · exact hall it (by simp [hrest])
            · rcases List.mem_cons.mp h2 with heq2 | hpop
              · exact heq2 ▸ hrelLen
              · exact hall it (by simp [hpop])
        · rw [if_neg hanc] at hrun
          have hstrict := hrelLen.2 (by
            cases hb : isAncestorIncludingSelf rel.relationship_type
            · rfl
            · exact absurd hb hanc)
          have hstep : ∀ (rt : RelationshipType) (c : Fin n),
              isCollateralType rt = true →
              isAncestorIncludingSelf rt = false →
              AncLenOk (mkDescentRel g rel rt c) := by
            intro rt c hcoll hnotanc
            apply ancLenOk_of_collateral hcoll hnotanc
            have := hstrict.2
            simp only [mkDescentRel, List.length_append, List.length_cons,
              List.length_nil]
            omega
          by_cases hsib : (isSiblingType rel.relationship_type ||
              isNephewOrNieceType rel.relationship_type) = true
          · rw [if_pos hsib] at hrun
            refine ih _ _ res ?_ hrun
            intro it hit
            rcases List.mem_append.mp hit with h1 | h2
            · rcases List.mem_append.mp h1 with hpush | hrest
              · rcases List.mem_map.mp hpush with ⟨c, _, hceq⟩
                rw [← hceq]
                by_cases hgc : g.gender c = Gender.MALE
                · rw [if_pos hgc]
                  exact hstep RelationshipType.NEPHEW c (by decide) (by decide)
                · rw [if_neg hgc]
                  exact hstep RelationshipType.NIECE c (by decide) (by decide)
              · exact hall it (by simp [hrest])
            · rcases List.mem_cons.mp h2 with heq2 | hpop
              · exact heq2 ▸ hrelLen
              · exact hall it (by simp [hpop])
          · rw [if_neg hsib] at hrun
            by_cases hunc : (isUncleOrAuntType rel.relationship_type ||
                isCousinType rel.relationship_type) = true
            · rw [if_pos hunc] at hrun
              refine ih _ _ res ?_ hrun
              intro it hit
              rcases List.mem_append.mp hit with h1 | h2
              · rcases List.mem_append.mp h1 with hpush | hrest
                · rcases List.mem_map.mp hpush with ⟨c, _, hceq⟩
                  rw [← hceq]
                  exact hstep RelationshipType.COUSIN c (by decide) (by decide)
                · exact hall it (by simp [hrest])
              · rcases List.mem_cons.mp h2 with heq2 | hpop
                · exact heq2 ▸ hrelLen
                · exact hall it (by simp [hpop])
            · rw [if_neg hunc] at hrun
              refine ih _ _ res ?_ hrun
              intro it hit
              rcases List.mem_append.mp hit with h1 | h2
              · exact hall it (by simp [h1])
              · rcases List.mem_cons.mp h2 with heq2 | hpop
                · exact heq2 ▸ hrelLen
                · exact hall it (by simp [hpop])

theorem processDescendants_ne_none (g : FamilyGraph n) :
    processDescendants g ≠ none := by
  unfold processDescendants
  apply descLoop_ne_none
  simp [Finset.card_univ]

theorem processAncestors_ne_none (g : FamilyGraph n) :
    processAncestors g ≠ none := by
  unfold processAncestors ancFuel
  apply ancLoop_ne_none
  simp only [List.map_nil, List.toFinset_nil, Finset.sdiff_empty,
    Finset.card_univ, Fintype.card_fin, List.length_cons, List.length_nil]
  omega

/-- The ancestor pass always terminates with a recorded list and never
raises, for every graph whose genders are known. -/
theorem processAncestors_ok (g : FamilyGraph n)
    (hg : ∀ p, g.gender p ≠ Gender.UNKNOWN) :
    ∃ l, processAncestors g = some (Except.ok l) := by
  have h1 := processAncestors_ne_none g
  have h2 : processAncestors g ≠ some (Except.error ()) := by
    unfold processAncestors
    apply ancLoop_no_error g hg
    intro it hit
    rcases List.mem_singleton.mp hit with rfl
    exact Or.inl rfl
  match hres : processAncestors g with
  | none => exact absurd hres h1
  | some (Except.error e) => cases e; exact absurd hres h2
  | some (Except.ok l) => exact ⟨l, rfl⟩

theorem processAncestors_lens (g : FamilyGraph n)
    (l : List (TraversalRel n)) (h : processAncestors g = some (Except.ok l)) :
    ∀ it ∈ l, AncLenOk it := by
  apply ancLoop_lens g (ancFuel g) [selfRel g] [] l ?_ h
  intro it hit
  simp only [List.append_nil] at hit
  rcases List.mem_singleton.mp hit with rfl
  exact ancLenOk_of_ancestor rfl rfl

/-- resolve always returns an outcome within the provided fuel: the
traversal terminates on every input graph. -/
theorem resolve_ne_none (g : FamilyGraph n) : resolve g ≠ none := by
  unfold resolve
  match hd : processDescendants g with
  | none => exact absurd hd (processDescendants_ne_none g)
  | some (Except.error e) => simp
  | some (Except.ok descRels) =>
    match ha : processAncestors g with
    | none => exact absurd ha (processAncestors_ne_none g)
    | some (Except.error e) => simp
    | some (Except.ok ancRels) => simp

theorem descInitStack_lens (g : FamilyGraph n) :
    ∀ it ∈ descInitStack g, DescLenOk g it := by
  intro it hit
  rcases List.mem_map.mp hit with ⟨c, _, hceq⟩
  rw [← hceq]
  constructor
  · simp
  · by_cases hgc : g.gender c = Gender.MALE
    · rw [if_pos hgc]; rfl
    · rw [if_neg hgc]; rfl

theorem bool_true_false_absurd {b : Bool} (h1 : b = true) (h2 : b = false) :
    False := by
  rw [h1] at h2
  exact Bool.noConfusion h2

/--
The endpoint of the lineage length analysis: every relationship recorded
by resolve has exactly one lineage token per traversed edge unless its
type is a collateral label, in which case the lineage is strictly shorter
than the number of traversed edges (the first collateral token encodes
the multi-edge detour through the shared parent, and the pop-then-push
relabelings do not lengthen the lineage).
-/
theorem resolve_lens (g : FamilyGraph n) (res : List (TraversalRel n))
    (it : TraversalRel n) (h : resolve g = some (Except.ok res))
    (hit : it ∈ res) :
    (isCollateralType it.relationship_type = true →
      it.lineage.length < it.trail.length) ∧
    (isCollateralType it.relationship_type = false →
      it.lineage.length = it.trail.length) := by
  unfold resolve at h
  match hd : processDescendants g with
  | none => rw [hd] at h; exact Option.noConfusion h
  | some (Except.error e) =>
    rw [hd] at h
    simp at h
  | some (Except.ok d) =>
    rw [hd] at h
    match ha : processAncestors g with
    | none => rw [ha] at h; exact Option.noConfusion h
    | some (Except.error e) =>
      rw [ha] at h
      simp at h
    | some (Except.ok a) =>
      rw [ha] at h
      simp only [Option.some.injEq, Except.ok.injEq] at h
      rw [← h] at hit
      rcases List.mem_append.mp hit with h1 | hsp
      · rcases List.mem_append.mp h1 with hdm | ham
        · have hlen : DescLenOk g it := by
            apply descLoop_lens g (n + 1) (descInitStack g) [] d ?_ hd it hdm
            intro jt hjt
            simp only [List.append_nil] at hjt
            exact descInitStack_lens g jt hjt
          exact ⟨fun hcoll => absurd (bool_true_false_absurd hcoll hlen.2)
            (fun f => f), fun _ => hlen.1⟩
        · have hlen : AncLenOk it := processAncestors_lens g a ha it ham
          cases hb : isAncestorIncludingSelf it.relationship_type
          · obtain ⟨hcoll, hlt⟩ := hlen.2 hb
            exact ⟨fun _ => hlt,
              fun hnc => absurd (bool_true_false_absurd hcoll hnc)
                (fun f => f)⟩
          · have heq := hlen.1 hb
            have hnc := anc_not_collateral it.relationship_type hb
            exact ⟨fun hcoll => absurd (bool_true_false_absurd hcoll hnc)
              (fun f => f), fun _ => heq⟩
      · rcases List.mem_map.mp hsp with ⟨s, _, hseq⟩
        rw [← hseq]
        by_cases hgf : g.gender g.focal = Gender.FEMALE
        · rw [if_pos hgf]
          exact ⟨fun hcoll => absurd (bool_true_false_absurd hcoll rfl)
            (fun f => f), fun _ => by simp⟩
        · rw [if_neg hgf]
          exact ⟨fun hcoll => absurd (bool_true_false_absurd hcoll rfl)
            (fun f => f), fun _ => by simp⟩

/--
The structural error of resolve happens exactly when the descendant
traversal revisits a person, that is, when two distinct descending paths
reach one person; the ancestor and spouse passes contribute no error.
-/
theorem resolve_error_iff (g : FamilyGraph n)
    (hnd : ∀ p, (g.children p).Nodup)
    (hg : ∀ p, g.gender p ≠ Gender.UNKNOWN) :
    (∃ e, resolve g = some (Except.error e)) ↔ TwoPaths g := by
  constructor
  · rintro ⟨e, he⟩
    cases e
    unfold resolve at he
    match hd : processDescendants g with
    | none => rw [hd] at he; exact Option.noConfusion he
    | some (Except.error e2) =>
      cases e2
      exact (processDescendants_error_iff g hnd).mp hd
    | some (Except.ok d) =>
      rw [hd] at he
      obtain ⟨l, hl⟩ := processAncestors_ok g hg
      rw [hl] at he
      simp at he
  · intro htwo
    have hd := (processDescendants_error_iff g hnd).mpr htwo
    refine ⟨(), ?_⟩
    unfold resolve
    rw [hd]

/-- The spec's concrete cycle scenario: the focal person's child whose own
child is the focal person. -/
def cycleGraph : FamilyGraph 2 :=
  { focal := 0,
    gender := ![Gender.MALE, Gender.MALE],
    father := ![none, none],
    mother := ![none, none],
    children := ![[1], [0]],
    spouses := ![[], []] }

/-- A focal person with a mother but no father: the paternal branch is
simply absent and resolution succeeds. -/
def motherOnlyGraph : FamilyGraph 2 :=
  { focal := 0,
    gender := ![Gender.MALE, Gender.FEMALE],
    father := ![none, none],
    mother := ![some 1, none],
    children := ![[], [0]],
    spouses := ![[], []] }

/-- A focal person 0 with father 1 and a paternal half-brother 2: reaching
the brother traverses two edges (up to the father, down to the brother)
while the recorded lineage is the single token BROTHER_PARENTAL. -/
def brotherGraph : FamilyGraph 3 :=
  { focal := 0,
    gender := ![Gender.MALE, Gender.MALE, Gender.MALE],
    father := ![some 1, none, some 1],
    mother := ![none, none, none],
    children := ![[], [0, 2], []],
    spouses := ![[], [], []] }

/-- A focal person 0 with a son 1 whose daughter is 2: the grandchild is
recorded with lineage SON, SON although she is female. -/
def grandchildGraph : FamilyGraph 3 :=
  { focal := 0,
    gender := ![Gender.MALE, Gender.MALE, Gender.FEMALE],
    father := ![none, some 0, some 1],
    mother := ![none, none, none],
    children := ![[1], [2], []],
    spouses := ![[], [], []] }

/--
C6. resolve raises the structural-integrity error exactly when the
descendant traversal revisits a person, which for graphs with
duplicate-free child sets is exactly when two distinct descending paths
reach one person (a child-graph cycle being the special case of the
spec's example); the ancestor pass never raises on graphs with known
genders, so a person missing a father or mother never raises — the
branch is simply omitted, as the mother-only graph shows; and the cycle
example raises.
-/
theorem C6_error_exactly_on_revisit :
    (∀ (n : Nat) (g : FamilyGraph n), (∀ p, (g.children p).Nodup) →
      (∀ p, g.gender p ≠ Gender.UNKNOWN) →
      ((∃ e, resolve g = some (Except.error e)) ↔ TwoPaths g)) ∧
    resolve cycleGraph = some (Except.error ()) ∧
    (∀ (n : Nat) (g : FamilyGraph n), (∀ p, g.gender p ≠ Gender.UNKNOWN) →
      ∃ l, processAncestors g = some (Except.ok l)) ∧
    resolve motherOnlyGraph = some (Except.ok
      [{ person := 1, relationship_type := RelationshipType.MOTHER,
         lineage := [RelationshipType.MOTHER], trail := [1] },
       { person := 0, relationship_type := RelationshipType.SELF,
         lineage := [], trail := [] }]) := by
  refine ⟨fun n g hnd hg => resolve_error_iff g hnd hg, by rfl,
    fun n g hg => processAncestors_ok g hg, by rfl⟩

/-- C6 witness: the equivalence applied to the concrete cycle graph,
with its hypotheses discharged by computation. -/
theorem C6_witness :
    (∀ p, (cycleGraph.children p).Nodup) ∧
    (∀ p, cycleGraph.gender p ≠ Gender.UNKNOWN) ∧
    ((∃ e, resolve cycleGraph = some (Except.error e)) ↔
      TwoPaths cycleGraph) :=
  ⟨by decide, by decide,
    C6_error_exactly_on_revisit.1 2 cycleGraph (by decide) (by decide)⟩

/-- The paternal half-brother relationship recorded on brotherGraph. -/
def brotherItem : TraversalRel 3 :=
  { person := 2, relationship_type := RelationshipType.BROTHER_PARENTAL,
    lineage := [RelationshipType.BROTHER_PARENTAL], trail := [1, 2] }

/-- The full recorded list of resolve on brotherGraph. -/
def brotherRes : List (TraversalRel 3) :=
  [{ person := 1, relationship_type := RelationshipType.FATHER,
     lineage := [RelationshipType.FATHER], trail := [1] },
   brotherItem,
   { person := 0, relationship_type := RelationshipType.SELF,
     lineage := [], trail := [] }]

/--
C7 counterexample. On brotherGraph, whose parent and child edges contain
no cycle, resolve records the paternal half-brother with a lineage of
length 1 although the traversal walks 2 edges to reach him (up to the
father, down to the brother, the ghost trail [1, 2]); the claim that
every recorded lineage length equals the number of traversed edges is
therefore false on the code.
-/
theorem C7_counterexample :
    resolve brotherGraph = some (Except.ok brotherRes) ∧
    brotherItem ∈ brotherRes ∧
    brotherItem.lineage.length = 1 ∧
    brotherItem.trail.length = 2 := by
  refine ⟨by rfl, by decide, rfl, rfl⟩

/--
C7 amended. resolve always terminates (returns an outcome within its
computed fuel on every graph, cyclic or not), and the recorded lineage
length equals the number of traversed edges exactly for the
non-collateral relationships (descendants, ancestors, the SELF sentinel
and spouses); a collateral relationship (sibling, uncle or aunt, nephew
or niece, cousin) has a lineage strictly shorter than its traversed edge
count, because its first collateral token compresses the detour through
the shared parent.
-/
theorem C7_termination_and_lineage_degree :
    (∀ (n : Nat) (g : FamilyGraph n), resolve g ≠ none) ∧
    (∀ (n : Nat) (g : FamilyGraph n) (res : List (TraversalRel n))
      (it : TraversalRel n),
      resolve g = some (Except.ok res) → it ∈ res →
      (isCollateralType it.relationship_type = true →
        it.lineage.length < it.trail.length) ∧
      (isCollateralType it.relationship_type = false →
        it.lineage.length = it.trail.length)) :=
  ⟨fun _ g => resolve_ne_none g,
    fun _ g res it h hit => resolve_lens g res it h hit⟩

/-- C7 witness: the amended theorem applied to brotherGraph and the
recorded half-brother relationship. -/
theorem C7_witness :
    resolve brotherGraph = some (Except.ok brotherRes) ∧
    brotherItem ∈ brotherRes ∧
    ((isCollateralType brotherItem.relationship_type = true →
        brotherItem.lineage.length < brotherItem.trail.length) ∧
      (isCollateralType brotherItem.relationship_type = false →
        brotherItem.lineage.length = brotherItem.trail.length)) :=
  ⟨by rfl, by decide,
    C7_termination_and_lineage_degree.2 3 brotherGraph brotherRes
      brotherItem (by rfl) (by decide)⟩

/--
C9. In the descendant pass, the lineage token appended when stepping from
a recorded descendant to its child is SON when the intermediate parent is
male and DAUGHTER otherwise, independent of the child's own gender
(mkGrandchildRel); consequently every depth-2 grandchild reached through
a son of the focal person is recorded with lineage [SON, SON] even when
the grandchild is female, her own gender showing only in the GRANDSON or
GRANDDAUGHTER relationship type.
-/
theorem C9_grandchild_son_son_lineage :
    ∀ (n : Nat) (g : FamilyGraph n) (res : List (TraversalRel n))
      (s c : Fin n),
      processDescendants g = some (Except.ok res) →
      s ∈ g.children g.focal → g.gender s = Gender.MALE →
      c ∈ g.children s →
      ({ person := c,
         relationship_type :=
           if g.gender c = Gender.MALE then RelationshipType.GRANDSON
           else RelationshipType.GRANDDAUGHTER,
         lineage := [RelationshipType.SON, RelationshipType.SON],
         trail := [s, c] } : TraversalRel n) ∈ res := by
  intro n g res s c h hs hgs hc
  unfold processDescendants at h
  obtain ⟨_, hpush⟩ := descLoop_mem g (n + 1) (descInitStack g) [] res h
  have hitem : ({ person := s,
                  relationship_type := RelationshipType.SON,
                  lineage := [RelationshipType.SON],
                  trail := [s] } : TraversalRel n) ∈ descInitStack g := by
    unfold descInitStack
    apply List.mem_map.mpr
    exact ⟨s, hs, by rw [if_pos hgs]⟩
  have hout := hpush _ hitem c hc
  have heq : mkGrandchildRel g
      ({ person := s,
         relationship_type := RelationshipType.SON,
         lineage := [RelationshipType.SON],
         trail := [s] } : TraversalRel n) c =
      ({ person := c,
         relationship_type :=
           if g.gender c = Gender.MALE then RelationshipType.GRANDSON
           else RelationshipType.GRANDDAUGHTER,
         lineage := [RelationshipType.SON, RelationshipType.SON],
         trail := [s, c] } : TraversalRel n) := by
    unfold mkGrandchildRel
    rw [if_pos hgs]
    rfl
  rw [heq] at hout
  exact hout

/-- The recorded list of the descendant pass on grandchildGraph. -/
def grandchildRes : List (TraversalRel 3) :=
  [{ person := 2, relationship_type := RelationshipType.GRANDDAUGHTER,
     lineage := [RelationshipType.SON, RelationshipType.SON],
     trail := [1, 2] },
   { person := 1, relationship_type := RelationshipType.SON,
     lineage := [RelationshipType.SON], trail := [1] }]

/-- C9 witness: the theorem applied to the concrete graph with a male
son 1 and his daughter 2. -/
theorem C9_witness :
    processDescendants grandchildGraph = some (Except.ok grandchildRes) ∧
    (1 : Fin 3) ∈ grandchildGraph.children grandchildGraph.focal ∧
    grandchildGraph.gender 1 = Gender.MALE ∧
    (2 : Fin 3) ∈ grandchildGraph.children 1 ∧
    ({ person := 2,
       relationship_type :=
         if grandchildGraph.gender 2 = Gender.MALE then
           RelationshipType.GRANDSON
         else RelationshipType.GRANDDAUGHTER,
       lineage := [RelationshipType.SON, RelationshipType.SON],
       trail := [1, 2] } : TraversalRel 3) ∈ grandchildRes :=
  ⟨by rfl, by decide, by rfl, by decide,
    C9_grandchild_son_son_lineage 3 grandchildGraph grandchildRes 1 2
      (by rfl) (by decide) (by rfl) (by decide)⟩

/--
C1. The Sibling Classifier table ANCESTORS_SIBLINGS_RELATIONSHIPS is
defined for all 5 ancestor keys, 3 lineage sides and 2 genders (last
conjunct), but the claimed shape fails at two cells of the GRANDFATHER
row: a female collateral on the PARENTAL side is classified
MATERNAL_AUNT_PARENTAL and on the MATERNAL side MATERNAL_AUNT_MATERNAL,
where the claim (and the spec, and the pattern of every other row as well
as the male cells of the same row) demand PARENTAL_AUNT_PARENTAL and
PARENTAL_AUNT_MATERNAL. This theorem evaluates the embedded table at the
two failing cells and checks totality of the table elsewhere.
-/
theorem C1_sibling_table_eval :
    ANCESTORS_SIBLINGS_RELATIONSHIPS RelationshipType.GRANDFATHER
        LineageType.PARENTAL Gender.FEMALE =
      some ⟨RelationshipType.MATERNAL_AUNT_PARENTAL,
        LineageOperation.POP_THEN_PUSH_RELATIONSHIP⟩ ∧
    ANCESTORS_SIBLINGS_RELATIONSHIPS RelationshipType.GRANDFATHER
        LineageType.MATERNAL Gender.FEMALE =
      some ⟨RelationshipType.MATERNAL_AUNT_MATERNAL,
        LineageOperation.POP_THEN_PUSH_RELATIONSHIP⟩ ∧
    RelationshipType.MATERNAL_AUNT_PARENTAL ≠
      RelationshipType.PARENTAL_AUNT_PARENTAL ∧
    RelationshipType.MATERNAL_AUNT_MATERNAL ≠
      RelationshipType.PARENTAL_AUNT_MATERNAL ∧
    ([RelationshipType.SELF, RelationshipType.FATHER, RelationshipType.MOTHER,
        RelationshipType.GRANDFATHER, RelationshipType.GRANDMOTHER].all
      fun key =>
        [LineageType.FULL, LineageType.PARENTAL, LineageType.MATERNAL].all
          fun side =>
            [Gender.MALE, Gender.FEMALE].all fun gd =>
              (ANCESTORS_SIBLINGS_RELATIONSHIPS key side gd).isSome) = true := by
  decide

/--
C2. The concrete lineage scenarios of the spec, checked against the
embedded Heir Classification Engine: each stated lineage folds to exactly
the stated HeirType, and any token following HUSBAND raises the
invalid-transition error.
-/
theorem C2_concrete_lineages :
    deduceHeirType [RelationshipType.FATHER, RelationshipType.FATHER,
        RelationshipType.FATHER] = Except.ok HeirType.FATHER ∧
    deduceHeirType [RelationshipType.FATHER, RelationshipType.MOTHER,
        RelationshipType.FATHER] = Except.ok HeirType.UTERINE ∧
    deduceHeirType [RelationshipType.SON, RelationshipType.SON] =
      Except.ok HeirType.SON ∧
    deduceHeirType [RelationshipType.SON, RelationshipType.DAUGHTER] =
      Except.ok HeirType.DAUGHTER ∧
    deduceHeirType [RelationshipType.DAUGHTER, RelationshipType.SON] =
      Except.ok HeirType.UTERINE ∧
    deduceHeirType [RelationshipType.BROTHER_FULL, RelationshipType.SON] =
      Except.ok HeirType.NEPHEW_FULL ∧
    deduceHeirType [RelationshipType.BROTHER_MATERNAL, RelationshipType.SON] =
      Except.ok HeirType.UTERINE ∧
    deduceHeirType [RelationshipType.PARENTAL_UNCLE_FULL,
        RelationshipType.SON] = Except.ok HeirType.SON_UNCLE_FULL ∧
    deduceHeirType [RelationshipType.PARENTAL_UNCLE_FULL,
        RelationshipType.DAUGHTER] = Except.ok HeirType.UTERINE ∧
    (∀ t : RelationshipType,
      deduceHeirType [RelationshipType.HUSBAND, t] = Except.error ()) := by
  decide

/--
C3. HUSBAND, WIFE and STRANGER are absorbing terminal states of the Heir
Classification Engine: every token consumed in one of them raises the
invalid-transition error. UTERINE is a non-terminal sink: each of the
FATHER, MOTHER, SON and DAUGHTER tokens consumed in UTERINE keeps the
state UTERINE.
-/
theorem C3_terminal_states_and_uterine_sink :
    (∀ t : RelationshipType,
      heirTransition HeirType.HUSBAND t = none ∧
      heirTransition HeirType.WIFE t = none ∧
      heirTransition HeirType.STRANGER t = none) ∧
    heirTransition HeirType.UTERINE RelationshipType.FATHER =
      some HeirType.UTERINE ∧
    heirTransition HeirType.UTERINE RelationshipType.MOTHER =
      some HeirType.UTERINE ∧
    heirTransition HeirType.UTERINE RelationshipType.SON =
      some HeirType.UTERINE ∧
    heirTransition HeirType.UTERINE RelationshipType.DAUGHTER =
      some HeirType.UTERINE := by
  decide

/--
C4 counterexample. The claim states that every token the spec lists no
transition for raises in a non-terminal state; the SELF token refutes it:
the spec transition groups list no transition from the FATHER state on
SELF, yet the engine moves to STRANGER instead of raising.
-/
theorem C4_counterexample :
    HeirType.FATHER ∉ FINAL_STATES ∧
    specHeirTransition HeirType.FATHER RelationshipType.SELF = none ∧
    heirTransition HeirType.FATHER RelationshipType.SELF =
      some HeirType.STRANGER := by
  decide

/--
C4 amended. For every non-terminal state s and every token t other than
SELF, if the spec transition groups list no transition from s on t then
the engine raises the invalid-transition error (returns none, never a
default state). The SELF token is the single exception: the source adds a
SELF transition to STRANGER from every non-final state.
-/
theorem C4_unlisted_tokens_raise (s : HeirType) (t : RelationshipType)
    (hs : s ∉ FINAL_STATES) (ht : t ≠ RelationshipType.SELF)
    (hspec : specHeirTransition s t = none) : heirTransition s t = none := by
  revert hs ht hspec
  revert s t
  decide

/-- C4 witness: the amended theorem applied at the FATHER state and the
GRANDSON token. -/
theorem C4_witness :
    HeirType.FATHER ∉ FINAL_STATES ∧
    RelationshipType.GRANDSON ≠ RelationshipType.SELF ∧
    specHeirTransition HeirType.FATHER RelationshipType.GRANDSON = none ∧
    heirTransition HeirType.FATHER RelationshipType.GRANDSON = none :=
  ⟨by decide, by decide, by decide,
    C4_unlisted_tokens_raise HeirType.FATHER RelationshipType.GRANDSON
      (by decide) (by decide) (by decide)⟩

/--
C5 counterexample. Two Relationship values with the same lineage but a
different relationship_type (or a different person) are not equal under
the generated dataclass equality, although their hashes agree; the claim
that equality is determined by the lineage sequence alone is therefore
false on the code.
-/
theorem C5_counterexample :
    (RelationshipV.mk ⟨"A", Gender.MALE⟩ RelationshipType.FATHER
        [RelationshipType.FATHER]).lineage =
      (RelationshipV.mk ⟨"A", Gender.MALE⟩ RelationshipType.SELF
        [RelationshipType.FATHER]).lineage ∧
    relationshipPyEq
      (RelationshipV.mk ⟨"A", Gender.MALE⟩ RelationshipType.FATHER
        [RelationshipType.FATHER])
      (RelationshipV.mk ⟨"A", Gender.MALE⟩ RelationshipType.SELF
        [RelationshipType.FATHER]) = false ∧
    relationshipHashKey
      (RelationshipV.mk ⟨"A", Gender.MALE⟩ RelationshipType.FATHER
        [RelationshipType.FATHER]) =
      relationshipHashKey
        (RelationshipV.mk ⟨"A", Gender.MALE⟩ RelationshipType.SELF
          [RelationshipType.FATHER]) ∧
    relationshipPyEq
      (RelationshipV.mk ⟨"A", Gender.MALE⟩ RelationshipType.FATHER
        [RelationshipType.FATHER])
      (RelationshipV.mk ⟨"B", Gender.MALE⟩ RelationshipType.FATHER
        [RelationshipType.FATHER]) = false := by
  decide

/--
C5 amended. Hashing of Relationship values is determined by the lineage
token sequence alone: two values with the same lineage have equal hash
keys (hence equal Python hashes) regardless of person or
relationship_type. Equality, however, is the generated dataclass field
equality: under equal lineages, two values are equal exactly when they
also agree on person and relationship_type.
-/
theorem C5_hash_by_lineage (r1 r2 : RelationshipV)
    (h : r1.lineage = r2.lineage) :
    relationshipHashKey r1 = relationshipHashKey r2 ∧
    (relationshipPyEq r1 r2 = true ↔
      r1.person = r2.person ∧ r1.relationship_type = r2.relationship_type) := by
  constructor
  · simp [relationshipHashKey, h]
  · simp [relationshipPyEq, h]

/-- C5 witness: the amended theorem applied to two concrete values with
equal lineages. -/
theorem C5_witness :
    (RelationshipV.mk ⟨"A", Gender.MALE⟩ RelationshipType.FATHER
        [RelationshipType.FATHER]).lineage =
      (RelationshipV.mk ⟨"A", Gender.MALE⟩ RelationshipType.SELF
        [RelationshipType.FATHER]).lineage ∧
    (relationshipHashKey
      (RelationshipV.mk ⟨"A", Gender.MALE⟩ RelationshipType.FATHER
        [RelationshipType.FATHER]) =
      relationshipHashKey
        (RelationshipV.mk ⟨"A", Gender.MALE⟩ RelationshipType.SELF
          [RelationshipType.FATHER]) ∧
    (relationshipPyEq
      (RelationshipV.mk ⟨"A", Gender.MALE⟩ RelationshipType.FATHER
        [RelationshipType.FATHER])
      (RelationshipV.mk ⟨"A", Gender.MALE⟩ RelationshipType.SELF
        [RelationshipType.FATHER]) = true ↔
      (RelationshipV.mk ⟨"A", Gender.MALE⟩ RelationshipType.FATHER
        [RelationshipType.FATHER]).person =
        (RelationshipV.mk ⟨"A", Gender.MALE⟩ RelationshipType.SELF
          [RelationshipType.FATHER]).person ∧
      (RelationshipV.mk ⟨"A", Gender.MALE⟩ RelationshipType.FATHER
        [RelationshipType.FATHER]).relationship_type =
        (RelationshipV.mk ⟨"A", Gender.MALE⟩ RelationshipType.SELF
          [RelationshipType.FATHER]).relationship_type)) :=
  ⟨rfl, C5_hash_by_lineage _ _ rfl⟩

/--
C8. The heir predicates are exactly static set memberships over HeirType:
is_fardh holds for exactly the nine fixed-share categories, is_taasib for
exactly the six residuary categories, is_uterine exactly for UTERINE,
is_stranger exactly for STRANGER, and NEPHEW_FULL and SON_UNCLE_FULL are
neither fixed-share nor residuary.
-/
theorem C8_heir_predicates (h : Heir) :
    (h.is_fardh = true ↔ h.heir_type ∈ [HeirType.HUSBAND, HeirType.WIFE,
      HeirType.FATHER, HeirType.MOTHER, HeirType.DAUGHTER,
      HeirType.SISTER_FULL, HeirType.SISTER_PARENTAL,
      HeirType.SISTER_MATERNAL, HeirType.BROTHER_MATERNAL]) ∧
    (h.is_taasib = true ↔ h.heir_type ∈ [HeirType.FATHER, HeirType.SON,
      HeirType.BROTHER_FULL, HeirType.BROTHER_PARENTAL, HeirType.UNCLE_FULL,
      HeirType.UNCLE_PARENTAL]) ∧
    (h.is_uterine = true ↔ h.heir_type = HeirType.UTERINE) ∧
    (h.is_stranger = true ↔ h.heir_type = HeirType.STRANGER) ∧
    ((h.heir_type = HeirType.NEPHEW_FULL ∨
        h.heir_type = HeirType.SON_UNCLE_FULL) →
      h.is_fardh = false ∧ h.is_taasib = false) := by
  rcases h with ⟨p, ht, lin, m⟩
  cases ht <;>
    simp [Heir.is_fardh, Heir.is_taasib, Heir.is_uterine, Heir.is_stranger]

/--
C10. From every non-final state of the Heir Classification Engine,
consuming a SELF token transitions to STRANGER instead of raising; in
particular the lineage FATHER then SELF classifies as STRANGER.
-/
theorem C10_self_token_goes_to_stranger :
    (∀ s : HeirType, s ∉ FINAL_STATES →
      heirTransition s RelationshipType.SELF = some HeirType.STRANGER) ∧
    deduceHeirType [RelationshipType.FATHER, RelationshipType.SELF] =
      Except.ok HeirType.STRANGER := by
  constructor
  · decide
  · decide

/-- C10 witness: the theorem applied at the FATHER state. -/
theorem C10_witness :
    HeirType.FATHER ∉ FINAL_STATES ∧
    heirTransition HeirType.FATHER RelationshipType.SELF =
      some HeirType.STRANGER :=
  ⟨by decide, C10_self_token_goes_to_stranger.1 HeirType.FATHER (by decide)⟩

end Mwareeth
